import Mathlib

/-!
Verification development for the background-rendering subsystem of a
terminal emulator (`wezterm-gui/src/termwindow/background.rs`).

The embedding models:
  * the gradient rasterizer (`CachedGradient::compute`), with `f64`
    values modelled as exact rationals and the transcendental `f64`
    operations (sqrt, cos, sin, degree-to-radian conversion) together
    with the external `colorgrad` gradient builder abstracted into an
    `ExternalOps` record (every `f64` is a rational, and these external
    operations are fixed deterministic functions);
  * the two global caches (`CachedGradient`, `CachedImage`) with their
    `load` / `mark` / `sweep` operations, with the global mutable state
    (both caches plus an allocation counter standing for `Arc::new`
    pointer identity) passed explicitly as a `BgState` value;
  * the per-layer resolver (`load_background_layer`) and the set
    loaders (`load_background_image`, `reload_background_image`);
  * the tiling / alignment / scroll geometry of
    `TermWindow::render_background`.

Random jitter (`fastrand::Rng`) is modelled as a stream `ℕ → ℕ` of
draws together with an explicit counter threaded through the pixel
loop; `rng.usize(0..n)` on the k-th call is modelled as `stream k % n`,
which ranges over exactly the values `0, …, n-1` that the source call
can produce.
-/

/-- A rasterized pixel value (the RGBA value produced by converting a
`colorgrad::Color` with `to_pixel`); its internal structure is irrelevant
to every claim, so it is abstracted as a natural number. -/
abbrev Pixel := ℕ

/-- The content of an `ImageData` value: either a single decoded RGBA
frame (`ImageDataType::new_single_frame(width, height, data)`) or an
encoded file with its playback-speed adjustment applied
(`ImageDataType::EncodedFile(data)` after `adjust_speed(speed)`). -/
inductive ImageContent where
  | frame (width height : ℕ) (data : List Pixel)
  | encodedFile (bytes : List ℕ) (speed : ℚ)
deriving DecidableEq

/-- An `Arc<ImageData>`: `id` is the allocation identity of the `Arc`
(two handles are identity-equal in the sense of shared pointer equality
exactly when they are equal as `Handle` values), `content` is the pixel
data it owns. Each `Arc::new` in the source allocates a fresh `id`. -/
structure Handle where
  id : ℕ
  content : ImageContent
deriving DecidableEq

/-- Modelled from the spec: `ImageData::hash()` is a stable hash of the
content of the shared buffer ("a stable hash/identity of the shared
handle"); it is modelled as the content itself, so that hash equality
coincides with content identity. -/
def imageHash (h : Handle) : ImageContent := h.content

/-- `config::GradientOrientation` (the payloads are the optional `f64`
parameters of the `Linear` and `Radial` variants). -/
inductive GradientOrientation where
  | Horizontal
  | Vertical
  | Linear (angle : Option ℚ)
  | Radial (radius cx cy : Option ℚ)
deriving DecidableEq

/-- Modelled from the spec: `config::Gradient` (defined in the `config`
crate, outside this repository slice) is a value type with structural
equality carrying an "orientation, color stops, optional dither-noise
amount override"; the stops are abstracted as plain data. -/
structure Gradient where
  orientation : GradientOrientation
  stops : List ℕ
  noise : Option ℕ
deriving DecidableEq

/-- Modelled from the spec: the result of `Gradient::build()` — a
compiled continuous gradient exposing its scalar `domain()` endpoints
and an evaluator `at` mapping a scalar to a pixel (`to_pixel(grad.gradAt t)`
folded into one function, since the `colorgrad` crate is external). -/
structure BuiltGradient where
  dmin : ℚ
  dmax : ℚ
  gradAt : ℚ → Pixel

/-- The external deterministic operations used by the rasterizer:
`Gradient::build` (from the external `colorgrad` crate; `none` models a
specification that cannot be compiled) and the `f64` transcendental
functions. Every `f64` is a rational number, so these are functions on
the rationals; they are parameters of the embedding because their exact
values are irrelevant to every claim. -/
structure ExternalOps where
  build : Gradient → Option BuiltGradient
  fsqrt : ℚ → ℚ
  fcos : ℚ → ℚ
  fsin : ℚ → ℚ
  toRadians : ℚ → ℚ

/-- Source line 60: `g.noise.unwrap_or_else(|| if matches!(g.orientation, Radial) then 16 else 64)`. -/
def noiseAmountOf (g : Gradient) : ℕ :=
  g.noise.getD (match g.orientation with
    | .Radial _ _ _ => 16
    | _ => 64)

/-- Source lines 68-74: `fn noise(rng, noise_amount)`; returns `0.0`
when `noise_amount == 0`, otherwise `rng.usize(0..noise_amount) as f64 * -1.`.
The draw from the rng is modelled as `draw % n`, which ranges over the
interval `[0, n)` produced by `rng.usize(0..n)`. -/
def noise (draw : ℕ) (noise_amount : ℕ) : ℚ :=
  if noise_amount = 0 then 0
  else ((draw % noise_amount : ℕ) : ℚ) * (-1)

/-- Source lines 47-49: map `t` in range `[a, b]` to range `[c, d]`. -/
def remap (t a b c d : ℚ) : ℚ :=
  (t - a) * ((d - c) / (b - a)) + c

/-- `(cx - x).abs() as usize` — an `f64`-to-`usize` cast truncates
toward zero and saturates below at 0; for the nonnegative absolute
value this is the floor. -/
def absUsize (q : ℚ) : ℕ := (⌊|q|⌋).toNat

/-- Source lines 126-130: the x-axis jitter of the radial branch —
suppressed (`0.`) when the pixel is within `noise_amount` pixels of the
center on the x axis, otherwise a `noise` draw. -/
def radialNx (n : ℕ) (cx x : ℚ) (draw : ℕ) : ℚ :=
  if absUsize (cx - x) < n then 0 else noise draw n

/-- Source lines 131-135: the y-axis jitter of the radial branch. -/
def radialNy (n : ℕ) (cy y : ℚ) (draw : ℕ) : ℚ :=
  if absUsize (cy - y) < n then 0 else noise draw n

/-- Source line 137: the radicand of the radial scalar,
`nx + (x - cx).powi(2) + (ny + y - cy).powi(2)`; the pixel's scalar is
`sqrt` of this divided by the radius. -/
def radialArg (n : ℕ) (cx cy x y : ℚ) (dx dy : ℕ) : ℚ :=
  radialNx n cx x dx + (x - cx) ^ 2 + (radialNy n cy y dy + y - cy) ^ 2

/-- Modelled from the spec's words for comparison (claim C2): the
radicand that would result from adding the jitter to each coordinate
before squaring, symmetrically on both axes, with the same per-axis
suppression rule. -/
def radialArgSpec (n : ℕ) (cx cy x y : ℚ) (dx dy : ℕ) : ℚ :=
  (radialNx n cx x dx + (x - cx)) ^ 2 + (radialNy n cy y dy + y - cy) ^ 2

/-- One pixel of `CachedGradient::compute` together with the rng-draw
counter threading: given the draw stream and the current counter,
produce the pixel at coordinate `(x, y)` and the updated counter.
Follows source lines 76-141 branch by branch. -/
def pixelStep (ops : ExternalOps) (grad : BuiltGradient) (g : Gradient)
    (w h : ℕ) (rng : ℕ → ℕ) (ctr : ℕ) (x y : ℕ) : Pixel × ℕ :=
  let fw : ℚ := (w : ℚ)
  let fh : ℚ := (h : ℚ)
  let n := noiseAmountOf g
  match g.orientation with
  | .Horizontal =>
      (grad.gradAt (remap ((x : ℚ) + noise (rng ctr) n) 0 fw grad.dmin grad.dmax), ctr + 1)
  | .Vertical =>
      (grad.gradAt (remap ((y : ℚ) + noise (rng ctr) n) 0 fh grad.dmin grad.dmax), ctr + 1)
  | .Linear angle =>
      let a := ops.toRadians (angle.getD 0)
      let x' := (x : ℚ) - fw / 2
      let y' := (y : ℚ) - fh / 2
      let t := x' * ops.fcos a - y' * ops.fsin a
      (grad.gradAt (remap (t + noise (rng ctr) n) (-fw / 2) (fw / 2) grad.dmin grad.dmax), ctr + 1)
  | .Radial radius cx cy =>
      let radius := fw * radius.getD (1/2)
      let cx := fw * cx.getD (1/2)
      let cy := fh * cy.getD (1/2)
      let suppressX := absUsize (cx - (x : ℚ)) < n
      let ctr₁ := if suppressX then ctr else ctr + 1
      let suppressY := absUsize (cy - (y : ℚ)) < n
      let ctr₂ := if suppressY then ctr₁ else ctr₁ + 1
      let t := ops.fsqrt (radialArg n cx cy (x : ℚ) (y : ℚ) (rng ctr) (rng ctr₁)) / radius
      (grad.gradAt t, ctr₂)

/-- The row-major pixel coordinate enumeration of
`imgbuf.enumerate_pixels_mut()`. -/
def pixelCoords (w h : ℕ) : List (ℕ × ℕ) :=
  (List.range h).flatMap fun y => (List.range w).map fun x => (x, y)

/-- The pixel loop: run `step` over the coordinate list threading the
rng-draw counter. -/
def renderLoop (step : ℕ → ℕ → ℕ → Pixel × ℕ) : List (ℕ × ℕ) → ℕ → List Pixel
  | [], _ => []
  | (x, y) :: cs, ctr =>
      let p := step ctr x y
      p.1 :: renderLoop step cs p.2

/-- Source lines 33-149: `CachedGradient::compute(g, width, height)`.
Fails (`none`) when `g.build()` fails; otherwise rasterizes every pixel
and wraps the buffer in a freshly allocated shared handle (`Arc::new`,
whose allocation identity is the caller-supplied `freshId`). -/
def CachedGradient.compute (ops : ExternalOps) (g : Gradient)
    (width height : ℕ) (rng : ℕ → ℕ) (freshId : ℕ) : Option Handle :=
  (ops.build g).map fun grad =>
    { id := freshId
      content := .frame width height
        (renderLoop (pixelStep ops grad g width height rng) (pixelCoords width height) 0) }

/-- Source lines 24-30: one entry of the global `GRADIENT_CACHE`
vector. -/
structure CachedGradient where
  g : Gradient
  width : ℕ
  height : ℕ
  image : Handle
  marked : Bool
deriving DecidableEq

/-- Source lines 187-192: one entry of the global `IMAGE_CACHE`
(a `HashMap<String, CachedImage>`); the key (the path) lives outside
the entry. `modified` is the file's `SystemTime`, modelled as ℕ. -/
structure CachedImage where
  modified : ℕ
  image : Handle
  marked : Bool
  speed : ℚ
deriving DecidableEq

/-- The global mutable state of the subsystem: the two caches (the
`GRADIENT_CACHE` vector and the `IMAGE_CACHE` map, the latter as an
association list with unique keys) plus the allocation counter that
hands out fresh `Arc` identities. -/
structure BgState where
  gradientCache : List CachedGradient
  imageCache : List (String × CachedImage)
  nextId : ℕ
deriving DecidableEq

/-- The error kinds a layer resolution can produce (spec section 7):
an unsupported sizing mode, a gradient build failure, or an I/O
failure (file stat / read). -/
inductive LoadErr where
  | notImplemented
  | buildFailure
  | ioFailure
deriving DecidableEq

/-- Source lines 154-160: the linear search of `CachedGradient::load` —
find the first entry whose key `(g, width, height)` matches
structurally, clear its `marked` flag in place, and return its shared
handle together with the updated cache vector; `none` when no entry
matches. -/
def ghit (g : Gradient) (width height : ℕ) :
    List CachedGradient → Option (Handle × List CachedGradient)
  | [] => none
  | e :: rest =>
      if e.g = g ∧ e.width = width ∧ e.height = height then
        some (e.image, { e with marked := false } :: rest)
      else
        (ghit g width height rest).map fun p => (p.1, e :: p.2)

/-- Source lines 151-172: `CachedGradient::load`. On a hit, clear the
entry's flag and return the shared handle; on a miss, rasterize
(`compute`), push a new entry with `marked: false`, and return the
fresh handle. -/
def CachedGradient.load (ops : ExternalOps) (rng : ℕ → ℕ) (g : Gradient)
    (width height : ℕ) (s : BgState) : Except LoadErr (Handle × BgState) :=
  match ghit g width height s.gradientCache with
  | some (image, cache') => .ok (image, { s with gradientCache := cache' })
  | none =>
      match CachedGradient.compute ops g width height rng s.nextId with
      | none => .error .buildFailure
      | some image =>
          .ok (image,
            { s with
                gradientCache := s.gradientCache ++
                  [{ g := g, width := width, height := height, image := image, marked := false }]
                nextId := s.nextId + 1 })

/-- Source lines 174-179: `CachedGradient::mark` sets every entry's
`marked` flag. -/
def CachedGradient.mark (s : BgState) : BgState :=
  { s with gradientCache := s.gradientCache.map fun e => { e with marked := true } }

/-- Source lines 181-184: `CachedGradient::sweep` retains exactly the
entries whose `marked` flag is clear. -/
def CachedGradient.sweep (s : BgState) : BgState :=
  { s with gradientCache := s.gradientCache.filter fun e => !e.marked }

/-- `HashMap::get` on the image cache: the entry stored at `path`. -/
def ilookup (path : String) (c : List (String × CachedImage)) : Option CachedImage :=
  (c.find? fun p => decide (p.1 = path)).map fun p => p.2

/-- The in-place `cached.marked = false` of the image-cache hit path,
applied through the map to the entry stored at `path`. -/
def iunmark (path : String) (c : List (String × CachedImage)) : List (String × CachedImage) :=
  c.map fun p => if p.1 = path then (p.1, { p.2 with marked := false }) else p

/-- `HashMap::insert`: replace the entry stored at `path` if present,
otherwise add a new binding. -/
def iinsert (path : String) (e : CachedImage) :
    List (String × CachedImage) → List (String × CachedImage)
  | [] => [(path, e)]
  | p :: ps => if p.1 = path then (path, e) :: ps else p :: iinsert path e ps

/-- The file system as seen by `CachedImage::load`: `stat` gives the
modification time of `std::fs::metadata(path).modified()` and `readF`
the bytes of `std::fs::read(path)`; `none` models the respective
failure. -/
structure FileSystem where
  stat : String → Option ℕ
  readF : String → Option (List ℕ)

/-- Source lines 195-225: `CachedImage::load`. Stat the file (failure
propagates); if a cached entry for the path matches the modification
time and the speed, clear its flag and return its handle; otherwise
read the file (failure propagates), apply the speed adjustment, wrap
in a fresh shared handle, and insert/replace the entry with
`marked: false`. -/
def CachedImage.load (fs : FileSystem) (path : String) (speed : ℚ)
    (s : BgState) : Except LoadErr (Handle × BgState) :=
  match fs.stat path with
  | none => .error .ioFailure
  | some modified =>
      let hit :=
        match ilookup path s.imageCache with
        | some cached =>
            if cached.modified = modified ∧ cached.speed = speed then some cached.image else none
        | none => none
      match hit with
      | some image => .ok (image, { s with imageCache := iunmark path s.imageCache })
      | none =>
          match fs.readF path with
          | none => .error .ioFailure
          | some bytes =>
              let image : Handle := { id := s.nextId, content := .encodedFile bytes speed }
              .ok (image,
                { s with
                    imageCache := iinsert path
                      { modified := modified, image := image, marked := false, speed := speed }
                      s.imageCache
                    nextId := s.nextId + 1 })

/-- Source lines 227-232: `CachedImage::mark`. -/
def CachedImage.mark (s : BgState) : BgState :=
  { s with imageCache := s.imageCache.map fun p => (p.1, { p.2 with marked := true }) }

/-- Source lines 234-242: `CachedImage::sweep` retains exactly the
entries whose `marked` flag is clear. -/
def CachedImage.sweep (s : BgState) : BgState :=
  { s with imageCache := s.imageCache.filter fun p => !p.2.marked }

/-- The `DimensionContext` built at source lines 255-264 and 447-456:
DPI, the axis's maximum pixel extent, and the cell size on that axis. -/
structure DimensionContextQ where
  dpi : ℚ
  pixel_max : ℚ
  pixel_cell : ℚ

/-- Modelled from the spec: a `config::Dimension` "evaluated in pixels
against the relevant axis context" — the dimension is abstracted as the
evaluation function itself, so `evaluate_as_pixels` is application. -/
def Dim := DimensionContextQ → ℚ

/-- `config::BackgroundSize` — the per-axis sizing mode. -/
inductive BackgroundSize where
  | Contain
  | Cover
  | Dimension (d : DimensionContextQ → ℚ)

/-- `config::BackgroundRepeat` — the per-axis repeat mode. -/
inductive BackgroundRepeat where
  | NoRepeat
  | Repeat
  | Mirror
deriving DecidableEq

/-- `config::BackgroundHorizontalAlignment`. -/
inductive BackgroundHorizontalAlignment where
  | Left
  | Center
  | Right
deriving DecidableEq

/-- `config::BackgroundVerticalAlignment`. -/
inductive BackgroundVerticalAlignment where
  | Top
  | Middle
  | Bottom
deriving DecidableEq

/-- Modelled from the spec: the layer's scroll attachment, "fixed or
scroll-factor-weighted" ("0 = fixed, 1 = scrolls in lockstep with
content"). -/
inductive BackgroundAttachment where
  | Fixed
  | Scroll (factor : ℚ)

/-- Modelled from the spec: `scroll_factor()` — `none` for a fixed
attachment, the configured factor otherwise. -/
def BackgroundAttachment.scroll_factor : BackgroundAttachment → Option ℚ
  | .Fixed => none
  | .Scroll factor => some factor

/-- `config::BackgroundSource`: a gradient, a flat color (abstracted to
the sRGB pixel that `color.to_srgb_u8()` produces), or a file with its
playback speed. -/
inductive BackgroundSource where
  | Gradient (g : Gradient)
  | Color (c : Pixel)
  | File (path : String) (speed : ℚ)

/-- `config::BackgroundLayer` — the fields of a layer definition that
`background.rs` reads (spec section 3). -/
structure BackgroundLayer where
  source : BackgroundSource
  width : BackgroundSize
  height : BackgroundSize
  horizontal_align : BackgroundHorizontalAlignment
  vertical_align : BackgroundVerticalAlignment
  horizontal_offset : Option (DimensionContextQ → ℚ)
  vertical_offset : Option (DimensionContextQ → ℚ)
  repeat_x : BackgroundRepeat
  repeat_y : BackgroundRepeat
  repeat_x_size : Option (DimensionContextQ → ℚ)
  repeat_y_size : Option (DimensionContextQ → ℚ)
  attachment : BackgroundAttachment
  opacity : ℚ
  hsb : ℕ

/-- `crate::Dimensions` — the viewport context (fields read by this
module: `dpi`, `pixel_width`, `pixel_height`). -/
structure Dimensions where
  dpi : ℕ
  pixel_width : ℕ
  pixel_height : ℕ

/-- `RenderMetrics` — the cell size in pixels (`cell_size.width`,
`cell_size.height`, both `isize` in the source). -/
structure RenderMetrics where
  cellWidth : ℤ
  cellHeight : ℤ

/-- An `f32`-to-`u32` `as` cast: truncation toward zero, saturating at
0 below and at `u32::MAX` above. -/
def castU32 (q : ℚ) : ℕ := min ((⌊q⌋).toNat) (2 ^ 32 - 1)

/-- Source lines 245-248: a resolved layer — the shared pixel-buffer
handle plus a clone of its defining `BackgroundLayer`. -/
structure LoadedBackgroundLayer where
  source : Handle
  defn : BackgroundLayer

/-- Source lines 250-337: `load_background_layer`. Gradient and Color
sources demand the `Dimension` sizing mode on both axes (anything else
is the "not implemented" error); a Radial gradient first equalizes
width and height to their minimum; Color rasterizes a uniform square
inline behind a fresh handle; File delegates to `CachedImage::load`. -/
def load_background_layer (ops : ExternalOps) (fs : FileSystem) (rng : ℕ → ℕ)
    (layer : BackgroundLayer) (dimensions : Dimensions) (render_metrics : RenderMetrics)
    (s : BgState) : Except LoadErr (LoadedBackgroundLayer × BgState) :=
  let h_context : DimensionContextQ :=
    { dpi := (dimensions.dpi : ℚ)
      pixel_max := (dimensions.pixel_width : ℚ)
      pixel_cell := (render_metrics.cellWidth : ℚ) }
  let v_context : DimensionContextQ :=
    { dpi := (dimensions.dpi : ℚ)
      pixel_max := (dimensions.pixel_height : ℚ)
      pixel_cell := (render_metrics.cellHeight : ℚ) }
  match layer.source with
  | .Gradient g =>
      match layer.width, layer.height with
      | .Dimension dw, .Dimension dh =>
          let width := castU32 (dw h_context)
          let height := castU32 (dh v_context)
          let width' :=
            match g.orientation with
            | .Radial _ _ _ => min width height
            | _ => width
          let height' :=
            match g.orientation with
            | .Radial _ _ _ => min height width'
            | _ => height
          (CachedGradient.load ops rng g width' height' s).map fun p =>
            ({ source := p.1, defn := layer }, p.2)
      | _, _ => .error .notImplemented
  | .Color color =>
      match layer.width, layer.height with
      | .Dimension dw, .Dimension dh =>
          let width := castU32 (dw h_context)
          let height := castU32 (dh v_context)
          let size := min width height
          let image : Handle :=
            { id := s.nextId
              content := .frame size size (List.replicate (size * size) color) }
          .ok ({ source := image, defn := layer }, { s with nextId := s.nextId + 1 })
      | _, _ => .error .notImplemented
  | .File path speed =>
      (CachedImage.load fs path speed s).map fun p =>
        ({ source := p.1, defn := layer }, p.2)

/-- Source lines 339-358: `load_background_image` — resolve each
configured layer in order; a failing layer is logged and omitted, the
state mutations of the successful layers accumulate. -/
def load_background_image (ops : ExternalOps) (fs : FileSystem) (rng : ℕ → ℕ)
    (config : List BackgroundLayer) (dimensions : Dimensions)
    (render_metrics : RenderMetrics) (s : BgState) :
    List LoadedBackgroundLayer × BgState :=
  match config with
  | [] => ([], s)
  | layer :: rest =>
      match load_background_layer ops fs rng layer dimensions render_metrics s with
      | .ok (loaded, s') =>
          let r := load_background_image ops fs rng rest dimensions render_metrics s'
          (loaded :: r.1, r.2)
      | .error _ => load_background_image ops fs rng rest dimensions render_metrics s

/-- The lookup of the `HashMap` built by `collect()` at source lines
369-372: inserting each `(hash, handle)` pair in order, a later pair
overwrites an earlier one with the same key, so `get` returns the last
matching pair. -/
def collectGet (m : List (ImageContent × Handle)) (k : ImageContent) : Option Handle :=
  m.foldl (fun acc p => if p.1 = k then some p.2 else acc) none

/-- Source lines 360-394: `reload_background_image` — build the
content-identity map of the previous layers, mark both caches, load
all layers afresh, swap each fresh handle for a previous handle with
the same content identity, and sweep both caches. -/
def reload_background_image (ops : ExternalOps) (fs : FileSystem) (rng : ℕ → ℕ)
    (config : List BackgroundLayer) (existing : List LoadedBackgroundLayer)
    (dimensions : Dimensions) (render_metrics : RenderMetrics) (s : BgState) :
    List LoadedBackgroundLayer × BgState :=
  let m : List (ImageContent × Handle) :=
    existing.map fun layer => (imageHash layer.source, layer.source)
  let s₁ := CachedImage.mark s
  let s₂ := CachedGradient.mark s₁
  let loaded := load_background_image ops fs rng config dimensions render_metrics s₂
  let result := loaded.1.map fun layer =>
    match collectGet m (imageHash layer.source) with
    | some ex => { layer with source := ex }
    | none => layer
  let s₃ := CachedImage.sweep loaded.2
  let s₄ := CachedGradient.sweep s₃
  (result, s₄)

/-- Source lines 483, 496-504, 513-518: the horizontal origin of
`render_background` — the viewport's left edge in the center-origin
coordinate space (`pixel_width / -2`), shifted per horizontal
alignment, plus the evaluated explicit horizontal offset. -/
def computeOriginX (pixel_width width : ℚ)
    (align : BackgroundHorizontalAlignment)
    (horizontal_offset : Option (DimensionContextQ → ℚ))
    (h_context : DimensionContextQ) : ℚ :=
  let ox := pixel_width / (-2)
  let ox := ox +
    match align with
    | .Left => 0
    | .Right => pixel_width - width
    | .Center => (pixel_width - width) / 2
  ox + ((horizontal_offset.map fun d => d h_context).getD 0)

/-- Source lines 484-495, 506-511: the vertical origin — the
viewport's top edge (`pixel_height / -2`), shifted per vertical
alignment, plus the evaluated explicit vertical offset. -/
def computeOriginY (pixel_height height : ℚ)
    (align : BackgroundVerticalAlignment)
    (vertical_offset : Option (DimensionContextQ → ℚ))
    (v_context : DimensionContextQ) : ℚ :=
  let oy := pixel_height / (-2)
  let oy := oy +
    match align with
    | .Top => 0
    | .Bottom => pixel_height - height
    | .Middle => (pixel_height - height) / 2
  oy + ((vertical_offset.map fun d => d v_context).getD 0)

/-- Source lines 520-529: the repeat pitch of an axis — the evaluated
explicit repeat size if configured, else the computed tile extent. -/
def computePitch (repeat_size : Option (DimensionContextQ → ℚ)) (extent : ℚ)
    (context : DimensionContextQ) : ℚ :=
  (repeat_size.map fun d => d context).getD extent

/-- Rust `f32::trunc`: the integer part, rounding toward zero. -/
def rustTrunc (x : ℚ) : ℚ := if 0 ≤ x then ((⌊x⌋ : ℤ) : ℚ) else ((⌈x⌉ : ℤ) : ℚ)

/-- Rust `f32::fract`: `x - x.trunc()`. -/
def rustFract (x : ℚ) : ℚ := x - rustTrunc x

/-- Source lines 533-539: the scroll-parallax adjustment. With a scroll
factor, `distance = top * cell_height * factor`, `num_tiles = distance
/ repeat_y`; the origin moves up by `(num_tiles.fract() * repeat_y).floor()`
and the start tile becomes `num_tiles.floor() as usize` (an `f32`-to-
`usize` cast saturates negative values to 0). Without a factor the
origin is untouched and the start tile stays 0. -/
def scrollOrigin (factor? : Option ℚ) (top : ℤ) (cell_height : ℤ)
    (repeat_y : ℚ) (origin_y : ℚ) : ℚ × ℕ :=
  match factor? with
  | none => (origin_y, 0)
  | some factor =>
      let distance := (top : ℚ) * (cell_height : ℚ) * factor
      let num_tiles := distance / repeat_y
      (origin_y - ((⌊rustFract num_tiles * repeat_y⌋ : ℤ) : ℚ),
       (⌊num_tiles⌋).toNat)

/-- Modelled from the spec's words for comparison (claim C3): the
scroll-parallax origin shift without the integer rounding — "shift the
vertical origin backward by the fractional part of num_tiles times the
pitch". -/
def scrollOriginSpec (factor? : Option ℚ) (top : ℤ) (cell_height : ℤ)
    (repeat_y : ℚ) (origin_y : ℚ) : ℚ × ℕ :=
  match factor? with
  | none => (origin_y, 0)
  | some factor =>
      let distance := (top : ℚ) * (cell_height : ℚ) * factor
      let num_tiles := distance / repeat_y
      (origin_y - rustFract num_tiles * repeat_y, (⌊num_tiles⌋).toNat)

/-- Source lines 554-559: the break test of the horizontal tile loop at
step `i` — `offset_x >= pixel_width || (x_step > 0 && repeat_x == NoRepeat)`
with `offset_x = x_step as f32 * repeat_x`. Note that it compares the
offset (index times pitch), not the tile's screen-space left edge. -/
def xBreakCond (repeat_x pixel_width : ℚ) (mode : BackgroundRepeat) (i : ℕ) : Prop :=
  pixel_width ≤ (i : ℚ) * repeat_x ∨ (0 < i ∧ mode = BackgroundRepeat.NoRepeat)

instance (repeat_x pixel_width : ℚ) (mode : BackgroundRepeat) (i : ℕ) :
    Decidable (xBreakCond repeat_x pixel_width mode i) := by
  unfold xBreakCond; infer_instance

/-- The loop semantics of `for x_step in 0.. { if break-test { break } body }`:
the body runs at step `i` exactly when no step `j ≤ i` triggers the
break test. -/
def xEmits (repeat_x pixel_width : ℚ) (mode : BackgroundRepeat) (i : ℕ) : Prop :=
  ∀ j ≤ i, ¬ xBreakCond repeat_x pixel_width mode j

instance (repeat_x pixel_width : ℚ) (mode : BackgroundRepeat) (i : ℕ) :
    Decidable (xEmits repeat_x pixel_width mode i) := by
  unfold xEmits; infer_instance

/-- Modelled from the spec's words for comparison (claim C1): the break
test that compares the tile's screen-space left edge
(`origin_x + x_step * repeat_x`) against the viewport's right edge
(`pixel_width / 2` in the center-origin space). -/
def xBreakCondSpec (origin_x repeat_x pixel_width : ℚ) (mode : BackgroundRepeat) (i : ℕ) : Prop :=
  pixel_width / 2 ≤ origin_x + (i : ℚ) * repeat_x ∨ (0 < i ∧ mode = BackgroundRepeat.NoRepeat)

instance (origin_x repeat_x pixel_width : ℚ) (mode : BackgroundRepeat) (i : ℕ) :
    Decidable (xBreakCondSpec origin_x repeat_x pixel_width mode i) := by
  unfold xBreakCondSpec; infer_instance

/-- The spec-worded loop semantics for the horizontal tiles. -/
def xEmitsSpec (origin_x repeat_x pixel_width : ℚ) (mode : BackgroundRepeat) (i : ℕ) : Prop :=
  ∀ j ≤ i, ¬ xBreakCondSpec origin_x repeat_x pixel_width mode j

instance (origin_x repeat_x pixel_width : ℚ) (mode : BackgroundRepeat) (i : ℕ) :
    Decidable (xEmitsSpec origin_x repeat_x pixel_width mode i) := by
  unfold xEmitsSpec; infer_instance

lemma radialNx_of_zero (cx x : ℚ) (draw : ℕ) : radialNx 0 cx x draw = 0 := by
  simp [radialNx, noise]

lemma radialNy_of_zero (cy y : ℚ) (draw : ℕ) : radialNy 0 cy y draw = 0 := by
  simp [radialNy, noise]

lemma pixelStep_rng_irrel (ops : ExternalOps) (grad : BuiltGradient) (g : Gradient)
    (w h : ℕ) (rng₁ rng₂ : ℕ → ℕ) (ctr x y : ℕ) (hn : noiseAmountOf g = 0) :
    pixelStep ops grad g w h rng₁ ctr x y = pixelStep ops grad g w h rng₂ ctr x y := by
  obtain ⟨orient, stops, noiseOpt⟩ := g
  cases orient with
  | Horizontal =>
      simp only [noiseAmountOf] at hn
      simp [pixelStep, noiseAmountOf, hn, noise]
  | Vertical =>
      simp only [noiseAmountOf] at hn
      simp [pixelStep, noiseAmountOf, hn, noise]
  | Linear angle =>
      simp only [noiseAmountOf] at hn
      simp [pixelStep, noiseAmountOf, hn, noise]
  | Radial radius cx cy =>
      simp only [noiseAmountOf] at hn
      simp [pixelStep, noiseAmountOf, hn, radialArg, radialNx_of_zero, radialNy_of_zero]

lemma renderLoop_congr (step₁ step₂ : ℕ → ℕ → ℕ → Pixel × ℕ)
    (hstep : ∀ ctr x y, step₁ ctr x y = step₂ ctr x y) :
    ∀ (cs : List (ℕ × ℕ)) (ctr : ℕ), renderLoop step₁ cs ctr = renderLoop step₂ cs ctr := by
  intro cs
  induction cs with
  | nil => intro ctr; rfl
  | cons c cs ih =>
      intro ctr
      obtain ⟨x, y⟩ := c
      simp only [renderLoop, hstep, ih]

/-- Claim C10: the dither jitter produced by `noise` is never positive —
for `noise_amount = n > 0` it is an integer drawn from
`{-(n-1), …, 0}` (every such value is attainable), for `n = 0` it is
exactly `0` — and with noise amount 0 the gradient rasterization
`CachedGradient::compute` is a deterministic function of the gradient
spec, width and height, independent of the random stream. -/
theorem noise_nonpositive_and_zero_noise_deterministic :
    (∀ draw n, noise draw n ≤ 0) ∧
    (∀ draw n, 0 < n → ∃ k : ℕ, k < n ∧ noise draw n = -(k : ℚ)) ∧
    (∀ n k, 0 < n → k < n → ∃ draw, noise draw n = -(k : ℚ)) ∧
    (∀ draw, noise draw 0 = 0) ∧
    (∀ ops g width height rng₁ rng₂ freshId, noiseAmountOf g = 0 →
      CachedGradient.compute ops g width height rng₁ freshId =
        CachedGradient.compute ops g width height rng₂ freshId) := by
  refine ⟨?_, ?_, ?_, ?_, ?_⟩
  · intro draw n
    unfold noise
    split
    · exact le_refl 0
    · have h0 : (0 : ℚ) ≤ ((draw % n : ℕ) : ℚ) := Nat.cast_nonneg _
      nlinarith
  · intro draw n hn
    refine ⟨draw % n, Nat.mod_lt _ hn, ?_⟩
    unfold noise
    rw [if_neg (Nat.pos_iff_ne_zero.mp hn)]
    ring
  · intro n k hn hk
    refine ⟨k, ?_⟩
    unfold noise
    rw [if_neg (Nat.pos_iff_ne_zero.mp hn), Nat.mod_eq_of_lt hk]
    ring
  · intro draw; simp [noise]
  · intro ops g width height rng₁ rng₂ freshId hn
    unfold CachedGradient.compute
    cases hb : ops.build g with
    | none => rfl
    | some grad =>
        have hr : renderLoop (pixelStep ops grad g width height rng₁) (pixelCoords width height) 0 =
            renderLoop (pixelStep ops grad g width height rng₂) (pixelCoords width height) 0 :=
          renderLoop_congr _ _
            (fun ctr x y => pixelStep_rng_irrel ops grad g width height rng₁ rng₂ ctr x y hn)
            (pixelCoords width height) 0
        simp only [Option.map, hr]

/-- Witness for C10 at concrete inputs. -/
theorem noise_nonpositive_and_zero_noise_deterministic_witness :
    (∃ k : ℕ, k < 16 ∧ noise 5 16 = -(k : ℚ)) ∧
    (∃ draw, noise draw 16 = -(7 : ℕ)) ∧
    CachedGradient.compute
        { build := fun _ => some { dmin := 0, dmax := 1, gradAt := fun _ => 0 }
          fsqrt := id, fcos := id, fsin := id, toRadians := id }
        { orientation := .Horizontal, stops := [0], noise := some 0 } 2 2
        (fun k => k) 0 =
      CachedGradient.compute
        { build := fun _ => some { dmin := 0, dmax := 1, gradAt := fun _ => 0 }
          fsqrt := id, fcos := id, fsin := id, toRadians := id }
        { orientation := .Horizontal, stops := [0], noise := some 0 } 2 2
        (fun k => k + 17) 0 := by
  refine ⟨?_, ?_, ?_⟩
  · exact noise_nonpositive_and_zero_noise_deterministic.2.1 5 16 (by decide)
  · exact noise_nonpositive_and_zero_noise_deterministic.2.2.1 16 7 (by decide) (by decide)
  · exact noise_nonpositive_and_zero_noise_deterministic.2.2.2.2 _ _ 2 2 _ _ 0 rfl

/-- Counterexample to claim C2: at noise amount 16, center (0,0), pixel
(100,100), jitter draws 5 and 3 (giving `nx = -5`, `ny = -3`), the
radicand the code computes (the x-jitter added outside the square) is
19404, while the claim's symmetric-jitter reading gives 18434; with the
default radius 50 of a 100-pixel-wide square buffer the two scalars fed
to the gradient differ. -/
theorem radial_jitter_counterexample :
    radialArg 16 0 0 100 100 5 3 = 19404 ∧
    radialArgSpec 16 0 0 100 100 5 3 = 18434 ∧
    Real.sqrt ((radialArg 16 0 0 100 100 5 3 : ℚ) : ℝ) / 50 ≠
      Real.sqrt ((radialArgSpec 16 0 0 100 100 5 3 : ℚ) : ℝ) / 50 := by
  have h1 : radialArg 16 0 0 100 100 5 3 = 19404 := by
    norm_num [radialArg, radialNx, radialNy, noise, absUsize]
  have h2 : radialArgSpec 16 0 0 100 100 5 3 = 18434 := by
    norm_num [radialArgSpec, radialNx, radialNy, noise, absUsize]
  refine ⟨h1, h2, ?_⟩
  rw [h1, h2]
  have hlt : Real.sqrt ((18434 : ℚ) : ℝ) < Real.sqrt ((19404 : ℚ) : ℝ) := by
    apply Real.sqrt_lt_sqrt <;> norm_num
  intro h
  have h50 : (0 : ℝ) < 50 := by norm_num
  have := (div_lt_div_iff_of_pos_right h50).mpr hlt
  rw [h] at this
  exact lt_irrefl _ this

/-- Claim C2 (amended): in the Radial branch the scalar fed to the
gradient is `sqrt(nx + (x-cx)² + (ny + y - cy)²) / radius` — the
x-axis jitter is added to the squared-distance sum, not to the x
coordinate, while the y-axis jitter is added to the y coordinate before
squaring — with jitter suppressed on an axis when the pixel is within
`noise_amount` pixels of the center on that axis. In particular, when
both axes are suppressed the radicand is exactly the squared Euclidean
distance to the center (and so the scalar is exactly distance/radius),
and with noise amount 0 the code's radicand and the symmetric-jitter
reading coincide. -/
theorem radial_jitter_amended (n : ℕ) (cx cy x y : ℚ) (dx dy : ℕ)
    (hx : absUsize (cx - x) < n) (hy : absUsize (cy - y) < n) :
    radialArg n cx cy x y dx dy = (x - cx) ^ 2 + (y - cy) ^ 2 ∧
    radialArgSpec n cx cy x y dx dy = (x - cx) ^ 2 + (y - cy) ^ 2 ∧
    Real.sqrt ((radialArg n cx cy x y dx dy : ℚ) : ℝ) =
      Real.sqrt ((((x - cx) ^ 2 + (y - cy) ^ 2 : ℚ)) : ℝ) ∧
    radialArg 0 cx cy x y dx dy = radialArgSpec 0 cx cy x y dx dy := by
  have hnx : radialNx n cx x dx = 0 := by simp [radialNx, hx]
  have hny : radialNy n cy y dy = 0 := by simp [radialNy, hy]
  have h1 : radialArg n cx cy x y dx dy = (x - cx) ^ 2 + (y - cy) ^ 2 := by
    rw [radialArg, hnx, hny]; ring
  have h2 : radialArgSpec n cx cy x y dx dy = (x - cx) ^ 2 + (y - cy) ^ 2 := by
    rw [radialArgSpec, hnx, hny]; ring
  refine ⟨h1, h2, by rw [h1], ?_⟩
  rw [radialArg, radialArgSpec, radialNx_of_zero, radialNy_of_zero]
  ring

/-- Witness for the amended C2 at a concrete input: width 100, center
(50,50), pixel (50,55), both axes within the suppression band. -/
theorem radial_jitter_amended_witness :
    absUsize ((50 : ℚ) - 50) < 16 ∧ absUsize ((50 : ℚ) - 55) < 16 ∧
    radialArg 16 50 50 50 55 9 11 = (50 - 50 : ℚ) ^ 2 + (55 - 50 : ℚ) ^ 2 := by
  refine ⟨by norm_num [absUsize], by norm_num [absUsize], ?_⟩
  exact (radial_jitter_amended 16 50 50 50 55 9 11
    (by norm_num [absUsize]) (by norm_num [absUsize])).1

/-- Counterexample to claim C1: viewport width 100, tile width 100,
pitch 100, Repeat mode, alignment Left with an explicit horizontal
offset of -50 pixels. The computed horizontal origin is -100 (not the
viewport's left edge -50), the code's loop emits only tile 0 (it breaks
at step 1 because `1 * 100 >= 100`), yet tile 1's left edge
(-100 + 100 = 0) has not reached the viewport's right edge (+50), so
the claimed left-edge-versus-right-edge stop condition would emit
tile 1. -/
theorem horizontal_tiling_counterexample :
    computeOriginX 100 100 .Left (some fun _ => -50)
        { dpi := 96, pixel_max := 100, pixel_cell := 8 } = -100 ∧
    ¬ xEmits 100 100 .Repeat 1 ∧
    xEmitsSpec (-100) 100 100 .Repeat 1 := by
  refine ⟨?_, ?_, ?_⟩
  · norm_num [computeOriginX]
  · intro hall
    exact (hall 1 le_rfl) (Or.inl (by norm_num))
  · intro j hj
    interval_cases j
    · norm_num [xBreakCondSpec]
    · norm_num [xBreakCondSpec]
      decide

/-- Claim C1 (amended): the horizontal tile enumeration starts at index
0, advances by the horizontal pitch, and stops when the index times the
pitch reaches the viewport's full pixel width (or after the first tile
under NoRepeat) — a condition independent of the layer's horizontal
origin. It coincides with comparing the tile's left edge against the
viewport's right edge exactly when the horizontal origin equals the
viewport's left edge (alignment Left with no explicit horizontal
offset); alignment shifts and explicit offsets do not change which
tiles are emitted. -/
theorem horizontal_tiling_amended (repeat_x pixel_width : ℚ)
    (mode : BackgroundRepeat) (i : ℕ) (hrx : 0 ≤ repeat_x) :
    (xEmits repeat_x pixel_width mode i ↔
      ((i : ℚ) * repeat_x < pixel_width ∧ (0 < i → mode ≠ .NoRepeat))) ∧
    (∀ origin_x, origin_x = pixel_width / (-2) →
      ∀ j : ℕ, (xEmitsSpec origin_x repeat_x pixel_width mode j ↔
        xEmits repeat_x pixel_width mode j)) ∧
    (∀ width h_off h_ctx,
      computeOriginX pixel_width width .Left (some fun _ => h_off) h_ctx =
        pixel_width / (-2) + h_off) := by
  refine ⟨?_, ?_, ?_⟩
  · constructor
    · intro hall
      have hi := hall i le_rfl
      unfold xBreakCond at hi
      push_neg at hi
      exact ⟨hi.1, fun h0 hmode => hi.2 h0 hmode⟩
    · rintro ⟨hlt, hnr⟩ j hj hbreak
      rcases hbreak with hle | ⟨hj0, hmode⟩
      · have hcast : ((j : ℚ)) ≤ (i : ℚ) := by exact_mod_cast hj
        have : (j : ℚ) * repeat_x ≤ (i : ℚ) * repeat_x :=
          mul_le_mul_of_nonneg_right hcast hrx
        linarith
      · exact hnr (lt_of_lt_of_le hj0 hj) hmode
  · intro origin_x hox j
    have hpt : ∀ k : ℕ, (xBreakCondSpec origin_x repeat_x pixel_width mode k ↔
        xBreakCond repeat_x pixel_width mode k) := by
      intro k
      unfold xBreakCondSpec xBreakCond
      rw [hox]
      constructor
      · rintro (h | h)
        · exact Or.inl (by linarith)
        · exact Or.inr h
      · rintro (h | h)
        · exact Or.inl (by linarith)
        · exact Or.inr h
    unfold xEmitsSpec xEmits
    exact forall_congr' fun k => imp_congr .rfl (not_congr (hpt k))
  · intro width h_off h_ctx
    simp [computeOriginX]

/-- Witness for the amended C1 at a concrete input: pitch 10, viewport
width 100, Repeat mode, index 3. -/
theorem horizontal_tiling_amended_witness :
    (xEmits 10 100 .Repeat 3 ↔
      ((3 : ℕ) : ℚ) * 10 < 100 ∧ (0 < 3 → BackgroundRepeat.Repeat ≠ .NoRepeat)) ∧
    (xEmitsSpec (-50) 10 100 .Repeat 3 ↔ xEmits 10 100 .Repeat 3) := by
  refine ⟨(horizontal_tiling_amended 10 100 .Repeat 3 (by norm_num)).1, ?_⟩
  exact (horizontal_tiling_amended 10 100 .Repeat 3 (by norm_num)).2.1
    (-50) (by norm_num) 3

/-- Counterexample to claim C3: factor 1/2, scroll position 1 row, cell
height 3, vertical pitch 3, base origin 0. Here `num_tiles = 1/2`, the
fractional shift is `1/2 * 3 = 3/2`, but the code floors it and moves
the origin by exactly 1, not 3/2. -/
theorem scroll_parallax_counterexample :
    (scrollOrigin (some (1/2)) 1 3 3 0).1 = -1 ∧
    (scrollOriginSpec (some (1/2)) 1 3 3 0).1 = -(3/2) ∧
    (scrollOrigin (some (1/2)) 1 3 3 0).1 ≠ (scrollOriginSpec (some (1/2)) 1 3 3 0).1 := by
  have hfr : rustFract ((1 : ℚ)/2) = 1/2 := by
    norm_num [rustFract, rustTrunc]
  have h1 : (scrollOrigin (some (1/2)) 1 3 3 0).1 = -1 := by
    norm_num [scrollOrigin, hfr]
  have h2 : (scrollOriginSpec (some (1/2)) 1 3 3 0).1 = -(3/2) := by
    norm_num [scrollOriginSpec, hfr]
  exact ⟨h1, h2, by rw [h1, h2]; norm_num⟩

/-- Claim C3 (amended): with a scroll factor, the vertical origin is
shifted backward by the floor of (the fractional part of `num_tiles`
times the pitch) — an integer pixel amount within one pixel of the
exact fractional shift (the code origin lies in
`[spec origin, spec origin + 1)`), and the starting tile index is the
floor of `num_tiles` (clamped to 0 from below by the `usize` cast; for
nonnegative `num_tiles` it equals the floor exactly). With a fixed
attachment the origin is unshifted and the start index is 0. -/
theorem scroll_parallax_amended (factor : ℚ) (top cell_height : ℤ)
    (repeat_y origin_y : ℚ) :
    ((scrollOriginSpec (some factor) top cell_height repeat_y origin_y).1 ≤
      (scrollOrigin (some factor) top cell_height repeat_y origin_y).1) ∧
    ((scrollOrigin (some factor) top cell_height repeat_y origin_y).1 <
      (scrollOriginSpec (some factor) top cell_height repeat_y origin_y).1 + 1) ∧
    (0 ≤ (top : ℚ) * (cell_height : ℚ) * factor / repeat_y →
      (((scrollOrigin (some factor) top cell_height repeat_y origin_y).2 : ℤ) =
        ⌊(top : ℚ) * (cell_height : ℚ) * factor / repeat_y⌋)) ∧
    scrollOrigin BackgroundAttachment.Fixed.scroll_factor top cell_height repeat_y origin_y =
      (origin_y, 0) := by
  unfold scrollOrigin scrollOriginSpec
  refine ⟨?_, ?_, ?_, rfl⟩
  · have := Int.floor_le (rustFract ((top : ℚ) * (cell_height : ℚ) * factor / repeat_y) * repeat_y)
    simp only
    linarith
  · have := Int.lt_floor_add_one
      (rustFract ((top : ℚ) * (cell_height : ℚ) * factor / repeat_y) * repeat_y)
    simp only
    linarith
  · intro hnt
    simp only
    exact Int.toNat_of_nonneg (Int.floor_nonneg.mpr hnt)

/-- Witness for the amended C3 at the concrete input of the
counterexample. -/
theorem scroll_parallax_amended_witness :
    0 ≤ ((1 : ℤ) : ℚ) * ((3 : ℤ) : ℚ) * (1/2) / 3 ∧
    (((scrollOrigin (some (1/2)) 1 3 3 0).2 : ℤ) =
      ⌊((1 : ℤ) : ℚ) * ((3 : ℤ) : ℚ) * (1/2) / 3⌋) := by
  refine ⟨by norm_num, ?_⟩
  exact (scroll_parallax_amended (1/2) 1 3 3 0).2.2.1 (by norm_num)


lemma ghit_none_no_match (g : Gradient) (width height : ℕ) :
    ∀ c : List CachedGradient, ghit g width height c = none →
      ∀ e ∈ c, ¬(e.g = g ∧ e.width = width ∧ e.height = height) := by
  intro c
  induction c with
  | nil => intro _ e he; cases he
  | cons e₀ rest ih =>
      intro hnone e he
      simp only [ghit] at hnone
      by_cases hm : e₀.g = g ∧ e₀.width = width ∧ e₀.height = height
      · rw [if_pos hm] at hnone; cases hnone
      · rw [if_neg hm] at hnone
        rcases List.mem_cons.mp he with he | he
        · rw [he]; exact hm
        · have hrest : ghit g width height rest = none := by
            cases hr : ghit g width height rest with
            | none => rfl
            | some p => rw [hr] at hnone; cases hnone
          exact ih hrest e he

lemma ghit_append_match (g : Gradient) (width height : ℕ) (e : CachedGradient)
    (hm : e.g = g ∧ e.width = width ∧ e.height = height) :
    ∀ c : List CachedGradient, ghit g width height c = none →
      ghit g width height (c ++ [e]) =
        some (e.image, c ++ [{ e with marked := false }]) := by
  intro c
  induction c with
  | nil => intro _; simp [ghit, hm]
  | cons e₀ rest ih =>
      intro hnone
      simp only [ghit] at hnone
      simp only [List.cons_append, ghit]
      by_cases hm₀ : e₀.g = g ∧ e₀.width = width ∧ e₀.height = height
      · rw [if_pos hm₀] at hnone; cases hnone
      · rw [if_neg hm₀] at hnone ⊢
        have hrest : ghit g width height rest = none := by
          cases hr : ghit g width height rest with
          | none => rfl
          | some p => rw [hr] at hnone; cases hnone
        rw [List.append_eq, ih hrest]
        rfl

lemma ghit_stable (g : Gradient) (width height : ℕ) :
    ∀ (c c' : List CachedGradient) (img : Handle),
      ghit g width height c = some (img, c') →
      ghit g width height c' = some (img, c') := by
  intro c
  induction c with
  | nil => intro c' img h; cases h
  | cons e₀ rest ih =>
      intro c' img h
      simp only [ghit] at h
      by_cases hm : e₀.g = g ∧ e₀.width = width ∧ e₀.height = height
      · rw [if_pos hm] at h
        have himg : e₀.image = img := congrArg Prod.fst (Option.some.inj h)
        have hc' : { e₀ with marked := false } :: rest = c' :=
          congrArg Prod.snd (Option.some.inj h)
        rw [← hc', ← himg]
        simp only [ghit]
        rw [if_pos (show ({ e₀ with marked := false } : CachedGradient).g = g ∧
          ({ e₀ with marked := false } : CachedGradient).width = width ∧
          ({ e₀ with marked := false } : CachedGradient).height = height from hm)]
      · rw [if_neg hm] at h
        cases hr : ghit g width height rest with
        | none => rw [hr] at h; cases h
        | some p =>
            rw [hr] at h
            have himg : p.1 = img := congrArg Prod.fst (Option.some.inj h)
            have hc' : e₀ :: p.2 = c' := congrArg Prod.snd (Option.some.inj h)
            have hrec := ih p.2 p.1 (by rw [hr])
            rw [← hc', ← himg]
            simp only [ghit]
            rw [if_neg hm, hrec]
            rfl

lemma ghit_unmarked (g : Gradient) (width height : ℕ) :
    ∀ (c c' : List CachedGradient) (img : Handle),
      ghit g width height c = some (img, c') →
      ∃ e ∈ c', (e.g = g ∧ e.width = width ∧ e.height = height) ∧
        e.marked = false ∧ e.image = img := by
  intro c
  induction c with
  | nil => intro c' img h; cases h
  | cons e₀ rest ih =>
      intro c' img h
      simp only [ghit] at h
      by_cases hm : e₀.g = g ∧ e₀.width = width ∧ e₀.height = height
      · rw [if_pos hm] at h
        have himg : e₀.image = img := congrArg Prod.fst (Option.some.inj h)
        have hc' : { e₀ with marked := false } :: rest = c' :=
          congrArg Prod.snd (Option.some.inj h)
        refine ⟨{ e₀ with marked := false }, ?_, hm, rfl, himg⟩
        rw [← hc']
        exact List.mem_cons_self _ _
      · rw [if_neg hm] at h
        cases hr : ghit g width height rest with
        | none => rw [hr] at h; cases h
        | some p =>
            rw [hr] at h
            have himg : p.1 = img := congrArg Prod.fst (Option.some.inj h)
            have hc' : e₀ :: p.2 = c' := congrArg Prod.snd (Option.some.inj h)
            obtain ⟨e, he, hkey, hmk, himg'⟩ := ih p.2 p.1 (by rw [hr])
            refine ⟨e, ?_, hkey, hmk, himg ▸ himg'⟩
            rw [← hc']
            exact List.mem_cons_of_mem _ he

/-- Claim C6: `CachedGradient::load` is idempotent — after a successful
load of `(g, width, height)`, a second load with structurally equal
arguments returns the very same shared handle (identity-equal `Arc`)
and leaves the state untouched, and it does so for **every** rasterizer
behavior `ops'` and random stream `rng'` (so the rasterizer cannot have
been invoked by the second call); moreover after the load the cache
entry for the key has its `marked` flag clear. -/
theorem gradient_cache_load_idempotent (ops ops' : ExternalOps) (rng rng' : ℕ → ℕ)
    (g : Gradient) (width height : ℕ) (s s₁ : BgState) (img : Handle)
    (h : CachedGradient.load ops rng g width height s = .ok (img, s₁)) :
    CachedGradient.load ops' rng' g width height s₁ = .ok (img, s₁) ∧
    ∃ e ∈ s₁.gradientCache, (e.g = g ∧ e.width = width ∧ e.height = height) ∧
      e.marked = false ∧ e.image = img := by
  unfold CachedGradient.load at h
  cases hh : ghit g width height s.gradientCache with
  | some p =>
      rw [hh] at h
      have hp : p.1 = img ∧ ({ s with gradientCache := p.2 } : BgState) = s₁ := by
        have := Except.ok.inj h
        exact ⟨congrArg Prod.fst this, congrArg Prod.snd this⟩
      obtain ⟨h₁, h₂⟩ := hp
      have hcache : s₁.gradientCache = p.2 := by rw [← h₂]
      have hs : ghit g width height p.2 = some (img, p.2) := by
        rw [← h₁]
        exact ghit_stable _ _ _ _ _ _ hh
      constructor
      · unfold CachedGradient.load
        rw [hcache, hs, ← h₂]
      · rw [hcache, ← h₁]
        exact ghit_unmarked _ _ _ _ _ _ hh
  | none =>
      rw [hh] at h
      cases hc : CachedGradient.compute ops g width height rng s.nextId with
      | none => rw [hc] at h; cases h
      | some image =>
          rw [hc] at h
          have hp : image = img ∧
              ({ s with
                  gradientCache := s.gradientCache ++
                    [{ g := g, width := width, height := height, image := image, marked := false }]
                  nextId := s.nextId + 1 } : BgState) = s₁ := by
            have := Except.ok.inj h
            exact ⟨congrArg Prod.fst this, congrArg Prod.snd this⟩
          obtain ⟨h₁, h₂⟩ := hp
          have hcache : s₁.gradientCache = s.gradientCache ++
              [{ g := g, width := width, height := height, image := img, marked := false }] := by
            rw [← h₂, ← h₁]
          have hap := ghit_append_match g width height
            { g := g, width := width, height := height, image := img, marked := false }
            ⟨rfl, rfl, rfl⟩ s.gradientCache hh
          constructor
          · unfold CachedGradient.load
            rw [hcache, hap, ← h₂, ← h₁]
          · rw [hcache]
            exact ⟨{ g := g, width := width, height := height, image := img, marked := false },
              List.mem_append_right _ (List.mem_singleton.mpr rfl), ⟨rfl, rfl, rfl⟩, rfl, rfl⟩

/-- A concrete `ExternalOps` for witnesses: every gradient builds to a
constant evaluator on domain `[0, 1]`. -/
def sampleOps : ExternalOps :=
  { build := fun _ => some { dmin := 0, dmax := 1, gradAt := fun _ => 0 }
    fsqrt := id, fcos := id, fsin := id, toRadians := id }

/-- A concrete gradient for witnesses. -/
def sampleGradient : Gradient := { orientation := .Horizontal, stops := [3], noise := none }

/-- The empty subsystem state. -/
def emptyState : BgState := { gradientCache := [], imageCache := [], nextId := 0 }

/-- The state that loading `sampleGradient` at 1x1 into the empty state
produces. -/
def sampleLoadedState : BgState :=
  { gradientCache :=
      [{ g := sampleGradient
         width := 1
         height := 1
         image := { id := 0, content := .frame 1 1 [0] }
         marked := false }]
    imageCache := []
    nextId := 1 }

/-- Witness for C6: a concrete first load into the empty state, then
the idempotence conclusion at those concrete values (with a different
rng for the second call). -/
theorem gradient_cache_load_idempotent_witness :
    CachedGradient.load sampleOps (fun _ => 0) sampleGradient 1 1 emptyState =
      .ok ({ id := 0, content := .frame 1 1 [0] }, sampleLoadedState) ∧
    CachedGradient.load sampleOps (fun _ => 7) sampleGradient 1 1 sampleLoadedState =
      .ok ({ id := 0, content := .frame 1 1 [0] }, sampleLoadedState) := by
  have h : CachedGradient.load sampleOps (fun _ => 0) sampleGradient 1 1 emptyState =
      .ok ({ id := 0, content := .frame 1 1 [0] }, sampleLoadedState) := by
    rfl
  exact ⟨h, (gradient_cache_load_idempotent sampleOps sampleOps (fun _ => 0) (fun _ => 7)
    sampleGradient 1 1 emptyState sampleLoadedState _ h).1⟩

lemma ghit_all_marked (g : Gradient) (width height : ℕ) :
    ∀ (c : List CachedGradient) (img : Handle) (c₂ : List CachedGradient),
      (∀ e ∈ c, e.marked = true) →
      ghit g width height c = some (img, c₂) →
      ∃ e ∈ c, (e.g = g ∧ e.width = width ∧ e.height = height) ∧ img = e.image ∧
        c₂.filter (fun e => !e.marked) = [{ e with marked := false }] := by
  intro c
  induction c with
  | nil => intro img c₂ _ h; cases h
  | cons e₀ rest ih =>
      intro img c₂ hall h
      simp only [ghit] at h
      by_cases hm : e₀.g = g ∧ e₀.width = width ∧ e₀.height = height
      · rw [if_pos hm] at h
        have himg : e₀.image = img := congrArg Prod.fst (Option.some.inj h)
        have hc₂ : { e₀ with marked := false } :: rest = c₂ :=
          congrArg Prod.snd (Option.some.inj h)
        refine ⟨e₀, List.mem_cons_self _ _, hm, himg.symm, ?_⟩
        rw [← hc₂]
        have hrest : rest.filter (fun e => !e.marked) = [] := by
          refine List.filter_eq_nil_iff.mpr ?_
          intro e he
          rw [hall e (List.mem_cons_of_mem _ he)]
          simp
        simp [List.filter, hrest]
      · rw [if_neg hm] at h
        cases hr : ghit g width height rest with
        | none => rw [hr] at h; cases h
        | some p =>
            rw [hr] at h
            have himg : p.1 = img := congrArg Prod.fst (Option.some.inj h)
            have hc₂ : e₀ :: p.2 = c₂ := congrArg Prod.snd (Option.some.inj h)
            obtain ⟨e, he, hkey, himg', hfil⟩ :=
              ih p.1 p.2 (fun e he => hall e (List.mem_cons_of_mem _ he)) (by rw [hr])
            refine ⟨e, List.mem_cons_of_mem _ he, hkey, himg ▸ himg', ?_⟩
            rw [← hc₂]
            have h₀ : e₀.marked = true := hall e₀ (List.mem_cons_self _ _)
            simp [List.filter, h₀, hfil]

lemma ilookup_mark (path : String) (c : List (String × CachedImage)) :
    ilookup path (c.map fun p => (p.1, { p.2 with marked := true })) =
      (ilookup path c).map fun e => { e with marked := true } := by
  induction c with
  | nil => rfl
  | cons p rest ih =>
      by_cases hk : p.1 = path
      · simp [ilookup, List.find?, hk]
      · simpa [ilookup, List.find?, hk] using ih

lemma iunmark_filter_no_key (path : String) (c : List (String × CachedImage))
    (hkey : ∀ p ∈ c, p.1 ≠ path) (hmk : ∀ p ∈ c, p.2.marked = true) :
    (iunmark path c).filter (fun p => !p.2.marked) = [] := by
  refine List.filter_eq_nil_iff.mpr ?_
  intro q hq
  obtain ⟨p, hp, rfl⟩ := List.mem_map.mp hq
  rw [if_neg (hkey p hp)]
  rw [hmk p hp]
  simp

lemma iunmark_all_marked_filter (path : String) :
    ∀ (c : List (String × CachedImage)) (en : CachedImage),
      (∀ p ∈ c, p.2.marked = true) →
      (c.map Prod.fst).Nodup →
      ilookup path c = some en →
      (iunmark path c).filter (fun p => !p.2.marked) =
        [(path, { en with marked := false })] := by
  intro c
  induction c with
  | nil => intro en _ _ h; cases h
  | cons p rest ih =>
      intro en hall hnd hlook
      have hnd' : (rest.map Prod.fst).Nodup := (List.nodup_cons.mp hnd).2
      have hnotin : p.1 ∉ rest.map Prod.fst := (List.nodup_cons.mp hnd).1
      by_cases hk : p.1 = path
      · have hen : en = p.2 := by
          simp [ilookup, List.find?, hk] at hlook
          exact hlook.symm
        subst hen
        have hrest : ∀ q ∈ rest, q.1 ≠ path := by
          intro q hq hqe
          have hmemq : q.1 ∈ rest.map Prod.fst := List.mem_map_of_mem Prod.fst hq
          rw [hqe, ← hk] at hmemq
          exact hnotin hmemq
        simp only [iunmark, List.map_cons, if_pos hk]
        have hnil := iunmark_filter_no_key path rest hrest
          (fun q hq => hall q (List.mem_cons_of_mem _ hq))
        simp only [iunmark] at hnil
        simp [List.filter, hnil, hk]
      · have hlook' : ilookup path rest = some en := by
          simp only [ilookup, List.find?] at hlook ⊢
          rw [decide_eq_false hk] at hlook
          exact hlook
        have hfil := ih en (fun q hq => hall q (List.mem_cons_of_mem _ hq)) hnd' hlook'
        simp only [iunmark, List.map_cons, if_neg hk] at hfil ⊢
        have hpm : p.2.marked = true := hall p (List.mem_cons_self _ _)
        simp [List.filter, hpm, hfil]

/-- Claim C5: `mark` sets every entry's flag in both caches; a `sweep`
right after a `mark` with no intervening `load` leaves the cache empty;
and if after `mark` exactly one `load` hits an existing key (clearing
that entry's flag), the following `sweep` retains that one entry and
removes every other entry — stated for the gradient cache via a
successful `load` on a key present in the cache, and for the image
cache via a cached entry whose modification time and speed match. -/
theorem cache_mark_sweep_correct (s : BgState) :
    (∀ e ∈ (CachedGradient.mark s).gradientCache, e.marked = true) ∧
    (∀ p ∈ (CachedImage.mark s).imageCache, p.2.marked = true) ∧
    (CachedGradient.sweep (CachedGradient.mark s)).gradientCache = [] ∧
    (CachedImage.sweep (CachedImage.mark s)).imageCache = [] ∧
    (∀ ops rng g width height img s₂,
      CachedGradient.load ops rng g width height (CachedGradient.mark s) = .ok (img, s₂) →
      (∃ e ∈ s.gradientCache, e.g = g ∧ e.width = width ∧ e.height = height) →
      ∃ e ∈ s.gradientCache, (e.g = g ∧ e.width = width ∧ e.height = height) ∧
        img = e.image ∧
        (CachedGradient.sweep s₂).gradientCache = [{ e with marked := false }]) ∧
    (∀ fs path speed en,
      ilookup path s.imageCache = some en →
      fs.stat path = some en.modified →
      en.speed = speed →
      (s.imageCache.map Prod.fst).Nodup →
      ∃ s₂, CachedImage.load fs path speed (CachedImage.mark s) = .ok (en.image, s₂) ∧
        (CachedImage.sweep s₂).imageCache = [(path, { en with marked := false })]) := by
  have hallg : ∀ e ∈ (CachedGradient.mark s).gradientCache, e.marked = true := by
    intro e he
    obtain ⟨a, _, hae⟩ := List.mem_map.mp he
    rw [← hae]
  have halli : ∀ p ∈ (CachedImage.mark s).imageCache, p.2.marked = true := by
    intro p hp
    obtain ⟨a, _, hap⟩ := List.mem_map.mp hp
    rw [← hap]
  refine ⟨hallg, halli, ?_, ?_, ?_, ?_⟩
  · refine List.filter_eq_nil_iff.mpr ?_
    intro e he
    rw [hallg e he]
    simp
  · refine List.filter_eq_nil_iff.mpr ?_
    intro p hp
    rw [halli p hp]
    simp
  · intro ops rng g width height img s₂ hload hmem
    unfold CachedGradient.load at hload
    cases hh : ghit g width height (CachedGradient.mark s).gradientCache with
    | none =>
        exfalso
        obtain ⟨e, he, hkey⟩ := hmem
        exact ghit_none_no_match g width height _ hh { e with marked := true }
          (List.mem_map_of_mem _ he) ⟨hkey.1, hkey.2.1, hkey.2.2⟩
    | some p =>
        rw [hh] at hload
        have himg : p.1 = img := congrArg Prod.fst (Except.ok.inj hload)
        have hs₂ : ({ CachedGradient.mark s with gradientCache := p.2 } : BgState) = s₂ :=
          congrArg Prod.snd (Except.ok.inj hload)
        obtain ⟨e', he', hkey', himg', hfil⟩ :=
          ghit_all_marked g width height _ p.1 p.2 hallg hh
        obtain ⟨a, ha, hae⟩ := List.mem_map.mp he'
        refine ⟨a, ha, ?_, ?_, ?_⟩
        · rw [← hae] at hkey'
          exact hkey'
        · rw [← himg, himg', ← hae]
        · have hc : s₂.gradientCache = p.2 := by rw [← hs₂]
          unfold CachedGradient.sweep
          rw [hc, hfil, ← hae]
  · intro fs path speed en hlook hstat hspeed hnd
    have hl2 : ilookup path (CachedImage.mark s).imageCache =
        some { en with marked := true } := by
      unfold CachedImage.mark
      rw [ilookup_mark, hlook]
      rfl
    refine ⟨{ CachedImage.mark s with
        imageCache := iunmark path (CachedImage.mark s).imageCache }, ?_, ?_⟩
    · unfold CachedImage.load
      rw [hstat, hl2]
      simp [hspeed]
    · unfold CachedImage.sweep
      have hnd' : ((CachedImage.mark s).imageCache.map Prod.fst).Nodup := by
        unfold CachedImage.mark
        rw [List.map_map]
        exact hnd
      have := iunmark_all_marked_filter path (CachedImage.mark s).imageCache
        { en with marked := true } halli hnd' hl2
      rw [this]

/-- Concrete shared handles, entries, state and file system for cache
witnesses. -/
def witHandleG : Handle := { id := 5, content := .frame 2 2 [0, 0, 0, 0] }

def witHandleI : Handle := { id := 6, content := .encodedFile [1] 1 }

def witEntryG : CachedGradient :=
  { g := sampleGradient, width := 2, height := 2, image := witHandleG, marked := false }

def witEntryI : CachedImage :=
  { modified := 10, image := witHandleI, marked := false, speed := 1 }

def witState : BgState :=
  { gradientCache := [witEntryG], imageCache := [("p", witEntryI)], nextId := 7 }

def witFs : FileSystem := { stat := fun _ => some 10, readF := fun _ => none }

/-- Witness for C5 at the concrete one-entry-per-cache state. -/
theorem cache_mark_sweep_correct_witness :
    (∃ e ∈ witState.gradientCache, (e.g = sampleGradient ∧ e.width = 2 ∧ e.height = 2) ∧
      witHandleG = e.image ∧
      (CachedGradient.sweep witState).gradientCache = [{ e with marked := false }]) ∧
    (∃ s₂, CachedImage.load witFs "p" 1 (CachedImage.mark witState) =
        .ok (witEntryI.image, s₂) ∧
      (CachedImage.sweep s₂).imageCache = [("p", { witEntryI with marked := false })]) := by
  constructor
  · exact (cache_mark_sweep_correct witState).2.2.2.2.1 sampleOps (fun _ => 0)
      sampleGradient 2 2 witHandleG witState rfl
      ⟨witEntryG, List.mem_singleton.mpr rfl, rfl, rfl, rfl⟩
  · exact (cache_mark_sweep_correct witState).2.2.2.2.2 witFs "p" 1 witEntryI
      rfl rfl rfl (by simp [witState])

/-- The key of a gradient-cache entry: the triple compared by
structural equality in `CachedGradient::load`. -/
def gKey (e : CachedGradient) : Gradient × ℕ × ℕ := (e.g, e.width, e.height)

/-- The data of a gradient-cache entry with the `marked` flag erased. -/
def gData (e : CachedGradient) : Gradient × ℕ × ℕ × Handle :=
  (e.g, e.width, e.height, e.image)

/-- Run one `CachedGradient::load` for its state effect only (a failed
load leaves the state untouched). -/
def applyGLoad (ops : ExternalOps) (rng : ℕ → ℕ) (r : Gradient × ℕ × ℕ)
    (s : BgState) : BgState :=
  match CachedGradient.load ops rng r.1 r.2.1 r.2.2 s with
  | .ok p => p.2
  | .error _ => s

/-- Run a sequence of gradient-cache loads. -/
def runGLoads (ops : ExternalOps) (rng : ℕ → ℕ)
    (reqs : List (Gradient × ℕ × ℕ)) (s : BgState) : BgState :=
  reqs.foldl (fun s r => applyGLoad ops rng r s) s

lemma ghit_decomp (g : Gradient) (width height : ℕ) :
    ∀ (c : List CachedGradient) (img : Handle) (c' : List CachedGradient),
      ghit g width height c = some (img, c') →
      ∃ pre e post, c = pre ++ e :: post ∧
        c' = pre ++ { e with marked := false } :: post ∧
        (∀ e' ∈ pre, ¬(e'.g = g ∧ e'.width = width ∧ e'.height = height)) ∧
        (e.g = g ∧ e.width = width ∧ e.height = height) ∧ img = e.image := by
  intro c
  induction c with
  | nil => intro img c' h; cases h
  | cons e₀ rest ih =>
      intro img c' h
      simp only [ghit] at h
      by_cases hm : e₀.g = g ∧ e₀.width = width ∧ e₀.height = height
      · rw [if_pos hm] at h
        have himg : e₀.image = img := congrArg Prod.fst (Option.some.inj h)
        have hc' : { e₀ with marked := false } :: rest = c' :=
          congrArg Prod.snd (Option.some.inj h)
        exact ⟨[], e₀, rest, rfl, hc'.symm, fun e' he' => absurd he' (List.not_mem_nil e'),
          hm, himg.symm⟩
      · rw [if_neg hm] at h
        cases hr : ghit g width height rest with
        | none => rw [hr] at h; cases h
        | some p =>
            rw [hr] at h
            have himg : p.1 = img := congrArg Prod.fst (Option.some.inj h)
            have hc' : e₀ :: p.2 = c' := congrArg Prod.snd (Option.some.inj h)
            obtain ⟨pre, e, post, hsplit, hsplit', hpre, hkey, himg'⟩ :=
              ih p.1 p.2 (by rw [hr])
            refine ⟨e₀ :: pre, e, post, by rw [hsplit]; rfl, ?_, ?_, hkey, himg ▸ himg'⟩
            · rw [← hc', hsplit']; rfl
            · intro e' he'
              rcases List.mem_cons.mp he' with he' | he'
              · rw [he']; exact hm
              · exact hpre e' he'

lemma gKey_matches (g : Gradient) (width height : ℕ) (e : CachedGradient) :
    gKey e = (g, width, height) ↔ (e.g = g ∧ e.width = width ∧ e.height = height) := by
  unfold gKey
  constructor
  · intro h
    exact ⟨congrArg (fun p => p.1) h, congrArg (fun p => p.2.1) h,
      congrArg (fun p => p.2.2) h⟩
  · rintro ⟨h1, h2, h3⟩
    rw [h1, h2, h3]

lemma gload_step_inv (ops : ExternalOps) (rng : ℕ → ℕ)
    (origD : List (Gradient × ℕ × ℕ × Handle)) (done : List (Gradient × ℕ × ℕ))
    (r : Gradient × ℕ × ℕ) (s : BgState)
    (hnd : (s.gradientCache.map gKey).Nodup)
    (hinv : ∀ e ∈ s.gradientCache, e.marked = true → gData e ∈ origD ∧ gKey e ∉ done) :
    ((applyGLoad ops rng r s).gradientCache.map gKey).Nodup ∧
    (∀ e ∈ (applyGLoad ops rng r s).gradientCache, e.marked = true →
      gData e ∈ origD ∧ gKey e ∉ done ++ [r]) := by
  obtain ⟨g, width, height⟩ := r
  cases hh : ghit g width height s.gradientCache with
  | some p =>
      have hstate : applyGLoad ops rng (g, width, height) s =
          { s with gradientCache := p.2 } := by
        unfold applyGLoad CachedGradient.load
        rw [hh]
      rw [hstate]
      obtain ⟨pre, e, post, hc, hc', hpre, hkey, himg⟩ :=
        ghit_decomp g width height _ p.1 p.2 hh
      have hkeys : p.2.map gKey = s.gradientCache.map gKey := by
        rw [hc, hc']
        simp [gKey]
      refine ⟨by rw [hkeys]; exact hnd, ?_⟩
      intro e' he' hm'
      rw [hc'] at he'
      have hmemc : e' ∈ s.gradientCache ∧ gKey e' ≠ (g, width, height) := by
        rcases List.mem_append.mp he' with hp | hp
        · refine ⟨by rw [hc]; exact List.mem_append_left _ hp, ?_⟩
          intro hkeq
          exact hpre e' hp ((gKey_matches g width height e').mp hkeq)
        · rcases List.mem_cons.mp hp with hp | hp
          · rw [hp] at hm'
            cases hm'
          · refine ⟨by rw [hc]; exact List.mem_append_right _ (List.mem_cons_of_mem _ hp), ?_⟩
            intro hkeq
            have hnd₂ : ((pre ++ e :: post).map gKey).Nodup := by rw [← hc]; exact hnd
            rw [List.map_append, List.map_cons] at hnd₂
            have hnd₃ := (List.nodup_append.mp hnd₂).2.1
            have : gKey e ∉ post.map gKey := (List.nodup_cons.mp hnd₃).1
            apply this
            rw [(gKey_matches g width height e).mpr hkey, ← hkeq]
            exact List.mem_map_of_mem gKey hp
      obtain ⟨hec, hne⟩ := hmemc
      obtain ⟨h₁, h₂⟩ := hinv e' hec hm'
      refine ⟨h₁, ?_⟩
      intro habs
      rcases List.mem_append.mp habs with habs | habs
      · exact h₂ habs
      · exact hne (List.mem_singleton.mp habs)
  | none =>
      have hnomatch : ∀ e ∈ s.gradientCache, gKey e ≠ (g, width, height) := by
        intro e he hkeq
        exact ghit_none_no_match g width height _ hh e he
          ((gKey_matches g width height e).mp hkeq)
      cases hcomp : CachedGradient.compute ops g width height rng s.nextId with
      | none =>
          have hstate : applyGLoad ops rng (g, width, height) s = s := by
            unfold applyGLoad CachedGradient.load
            rw [hh, hcomp]
          rw [hstate]
          refine ⟨hnd, ?_⟩
          intro e' he' hm'
          obtain ⟨h₁, h₂⟩ := hinv e' he' hm'
          refine ⟨h₁, ?_⟩
          intro habs
          rcases List.mem_append.mp habs with habs | habs
          · exact h₂ habs
          · exact hnomatch e' he' (List.mem_singleton.mp habs)
      | some image =>
          have hstate : applyGLoad ops rng (g, width, height) s =
              { s with
                  gradientCache := s.gradientCache ++
                    [{ g := g, width := width, height := height, image := image, marked := false }]
                  nextId := s.nextId + 1 } := by
            unfold applyGLoad CachedGradient.load
            rw [hh, hcomp]
          rw [hstate]
          constructor
          · simp only [List.map_append, List.map_cons, List.map_nil]
            rw [List.nodup_append]
            refine ⟨hnd, List.nodup_singleton _, ?_⟩
            intro k hk hk'
            obtain ⟨e, he, hke⟩ := List.mem_map.mp hk
            have hkeq : k = (g, width, height) := by
              rw [List.mem_singleton.mp hk']
              rfl
            exact hnomatch e he (by rw [hke, hkeq])
          · intro e' he' hm'
            rcases List.mem_append.mp he' with he' | he'
            · obtain ⟨h₁, h₂⟩ := hinv e' he' hm'
              refine ⟨h₁, ?_⟩
              intro habs
              rcases List.mem_append.mp habs with habs | habs
              · exact h₂ habs
              · exact hnomatch e' he' (List.mem_singleton.mp habs)
            · rw [List.mem_singleton.mp he'] at hm'
              cases hm'

lemma runGLoads_inv (ops : ExternalOps) (rng : ℕ → ℕ)
    (origD : List (Gradient × ℕ × ℕ × Handle)) :
    ∀ (reqs : List (Gradient × ℕ × ℕ)) (done : List (Gradient × ℕ × ℕ)) (s : BgState),
      (s.gradientCache.map gKey).Nodup →
      (∀ e ∈ s.gradientCache, e.marked = true → gData e ∈ origD ∧ gKey e ∉ done) →
      (∀ e ∈ (runGLoads ops rng reqs s).gradientCache, e.marked = true →
        gData e ∈ origD ∧ gKey e ∉ done ++ reqs) := by
  intro reqs
  induction reqs with
  | nil =>
      intro done s _ hinv e he hm
      obtain ⟨h₁, h₂⟩ := hinv e he hm
      exact ⟨h₁, by rw [List.append_nil]; exact h₂⟩
  | cons r rest ih =>
      intro done s hnd hinv e he hm
      have hstep := gload_step_inv ops rng origD done r s hnd hinv
      have hrun : runGLoads ops rng (r :: rest) s =
          runGLoads ops rng rest (applyGLoad ops rng r s) := rfl
      rw [hrun] at he
      obtain ⟨h₁, h₂⟩ := ih (done ++ [r]) (applyGLoad ops rng r s) hstep.1 hstep.2 e he hm
      refine ⟨h₁, ?_⟩
      rw [List.append_cons]
      exact h₂

lemma ilookup_iunmark (path : String) (c : List (String × CachedImage)) :
    ilookup path (iunmark path c) =
      (ilookup path c).map fun e => { e with marked := false } := by
  induction c with
  | nil => rfl
  | cons p rest ih =>
      by_cases hk : p.1 = path
      · simp [ilookup, iunmark, List.find?, hk]
      · simpa [ilookup, iunmark, List.find?, hk] using ih

lemma ilookup_iinsert (path : String) (en : CachedImage) :
    ∀ c : List (String × CachedImage), ilookup path (iinsert path en c) = some en := by
  intro c
  induction c with
  | nil => simp [ilookup, iinsert, List.find?]
  | cons p rest ih =>
      by_cases hk : p.1 = path
      · simp [ilookup, iinsert, List.find?, hk]
      · simpa [ilookup, iinsert, List.find?, hk] using ih

lemma CachedImage.load_hit (fs : FileSystem) (path : String) (speed : ℚ)
    (s : BgState) (modified : ℕ) (cached : CachedImage)
    (hstat : fs.stat path = some modified)
    (hlook : ilookup path s.imageCache = some cached)
    (hcond : cached.modified = modified ∧ cached.speed = speed) :
    CachedImage.load fs path speed s =
      .ok (cached.image, { s with imageCache := iunmark path s.imageCache }) := by
  unfold CachedImage.load
  rw [hstat, hlook]
  simp [hcond.1, hcond.2]

lemma CachedImage.load_read_none (fs : FileSystem) (path : String) (speed : ℚ)
    (s : BgState) (modified : ℕ) (bytes : List ℕ)
    (hstat : fs.stat path = some modified)
    (hlook : ilookup path s.imageCache = none)
    (hread : fs.readF path = some bytes) :
    CachedImage.load fs path speed s =
      .ok ({ id := s.nextId, content := .encodedFile bytes speed },
        { s with
            imageCache := iinsert path
              { modified := modified
                image := { id := s.nextId, content := .encodedFile bytes speed }
                marked := false
                speed := speed } s.imageCache
            nextId := s.nextId + 1 }) := by
  unfold CachedImage.load
  rw [hstat, hlook, hread]

lemma CachedImage.load_read_stale (fs : FileSystem) (path : String) (speed : ℚ)
    (s : BgState) (modified : ℕ) (cached : CachedImage) (bytes : List ℕ)
    (hstat : fs.stat path = some modified)
    (hlook : ilookup path s.imageCache = some cached)
    (hcond : ¬(cached.modified = modified ∧ cached.speed = speed))
    (hread : fs.readF path = some bytes) :
    CachedImage.load fs path speed s =
      .ok ({ id := s.nextId, content := .encodedFile bytes speed },
        { s with
            imageCache := iinsert path
              { modified := modified
                image := { id := s.nextId, content := .encodedFile bytes speed }
                marked := false
                speed := speed } s.imageCache
            nextId := s.nextId + 1 }) := by
  unfold CachedImage.load
  rw [hstat, hlook, hread]
  simp [if_neg hcond]

lemma CachedImage.load_stat_err (fs : FileSystem) (path : String) (speed : ℚ)
    (s : BgState) (hstat : fs.stat path = none) :
    CachedImage.load fs path speed s = .error .ioFailure := by
  unfold CachedImage.load
  rw [hstat]

lemma CachedImage.load_read_err_none (fs : FileSystem) (path : String) (speed : ℚ)
    (s : BgState) (modified : ℕ)
    (hstat : fs.stat path = some modified)
    (hlook : ilookup path s.imageCache = none)
    (hread : fs.readF path = none) :
    CachedImage.load fs path speed s = .error .ioFailure := by
  unfold CachedImage.load
  rw [hstat, hlook, hread]

lemma CachedImage.load_read_err_stale (fs : FileSystem) (path : String) (speed : ℚ)
    (s : BgState) (modified : ℕ) (cached : CachedImage)
    (hstat : fs.stat path = some modified)
    (hlook : ilookup path s.imageCache = some cached)
    (hcond : ¬(cached.modified = modified ∧ cached.speed = speed))
    (hread : fs.readF path = none) :
    CachedImage.load fs path speed s = .error .ioFailure := by
  unfold CachedImage.load
  rw [hstat, hlook, hread]
  simp [if_neg hcond]

/-- Claim C9: an entry inserted by a load miss carries `marked = false`,
so entries created between a `mark_all` and the following `sweep`
survive that sweep; only entries that already existed at `mark_all`
time (up to the `marked` flag) and whose key was never loaded in
between are removed. Stated for the gradient cache over an arbitrary
sequence of loads after `mark` (under the cache-key-uniqueness
invariant), and for the image cache through the fact that every
successful `CachedImage::load` leaves the entry stored at the path
unmarked and holding the returned handle. -/
theorem cache_new_entries_survive_sweep (ops : ExternalOps) (rng : ℕ → ℕ)
    (s : BgState) (reqs : List (Gradient × ℕ × ℕ))
    (hnd : (s.gradientCache.map gKey).Nodup) :
    (∀ e ∈ (runGLoads ops rng reqs (CachedGradient.mark s)).gradientCache,
      e.marked = true → gData e ∈ s.gradientCache.map gData ∧ gKey e ∉ reqs) ∧
    (∀ e ∈ (runGLoads ops rng reqs (CachedGradient.mark s)).gradientCache,
      e.marked = false →
      e ∈ (CachedGradient.sweep (runGLoads ops rng reqs (CachedGradient.mark s))).gradientCache) ∧
    (∀ e ∈ (runGLoads ops rng reqs (CachedGradient.mark s)).gradientCache,
      e ∉ (CachedGradient.sweep (runGLoads ops rng reqs (CachedGradient.mark s))).gradientCache →
      gData e ∈ s.gradientCache.map gData ∧ gKey e ∉ reqs) ∧
    (∀ fs path speed img s₂, CachedImage.load fs path speed s = .ok (img, s₂) →
      ∃ en, ilookup path s₂.imageCache = some en ∧ en.marked = false ∧ en.image = img) := by
  have hmnd : ((CachedGradient.mark s).gradientCache.map gKey).Nodup := by
    unfold CachedGradient.mark
    rw [List.map_map]
    have hcomp : (gKey ∘ fun e => { e with marked := true }) = gKey := by
      funext e
      rfl
    rw [hcomp]
    exact hnd
  have hmInv : ∀ e ∈ (CachedGradient.mark s).gradientCache, e.marked = true →
      gData e ∈ s.gradientCache.map gData ∧ gKey e ∉ ([] : List (Gradient × ℕ × ℕ)) := by
    intro e he _
    obtain ⟨a, ha, hae⟩ := List.mem_map.mp he
    refine ⟨?_, List.not_mem_nil _⟩
    have hge : gData e = gData a := by
      rw [← hae]
      rfl
    rw [hge]
    exact List.mem_map_of_mem gData ha
  have hmain := runGLoads_inv ops rng (s.gradientCache.map gData) reqs [] _ hmnd hmInv
  refine ⟨?_, ?_, ?_, ?_⟩
  · intro e he hm
    have hres := hmain e he hm
    rw [List.nil_append] at hres
    exact hres
  · intro e he hm
    unfold CachedGradient.sweep
    refine List.mem_filter.mpr ⟨he, ?_⟩
    rw [hm]
    rfl
  · intro e he hnotin
    cases hm : e.marked with
    | true =>
        have hres := hmain e he hm
        rw [List.nil_append] at hres
        exact hres
    | false =>
        exfalso
        apply hnotin
        unfold CachedGradient.sweep
        refine List.mem_filter.mpr ⟨he, ?_⟩
        rw [hm]
        rfl
  · intro fs path speed img s₂ hload
    cases hstat : fs.stat path with
    | none => rw [CachedImage.load_stat_err fs path speed s hstat] at hload; cases hload
    | some modified =>
        cases hlook : ilookup path s.imageCache with
        | some cached =>
            by_cases hcond : cached.modified = modified ∧ cached.speed = speed
            · rw [CachedImage.load_hit fs path speed s modified cached hstat hlook hcond]
                at hload
              have himg : cached.image = img := congrArg Prod.fst (Except.ok.inj hload)
              have hs₂ : ({ s with imageCache := iunmark path s.imageCache } : BgState) = s₂ :=
                congrArg Prod.snd (Except.ok.inj hload)
              refine ⟨{ cached with marked := false }, ?_, rfl, himg⟩
              rw [← hs₂]
              show ilookup path (iunmark path s.imageCache) = _
              rw [ilookup_iunmark, hlook]
              rfl
            · cases hread : fs.readF path with
              | none =>
                  rw [CachedImage.load_read_err_stale fs path speed s modified cached
                    hstat hlook hcond hread] at hload
                  cases hload
              | some bytes =>
                  rw [CachedImage.load_read_stale fs path speed s modified cached bytes
                    hstat hlook hcond hread] at hload
                  have himg :
                      ({ id := s.nextId, content := .encodedFile bytes speed } : Handle) = img :=
                    congrArg Prod.fst (Except.ok.inj hload)
                  have hs₂ := congrArg Prod.snd (Except.ok.inj hload)
                  dsimp only at hs₂
                  refine ⟨{ modified := modified, image := img, marked := false, speed := speed },
                    ?_, rfl, rfl⟩
                  rw [← hs₂]
                  show ilookup path (iinsert path _ s.imageCache) = _
                  rw [← himg]
                  exact ilookup_iinsert path _ s.imageCache
        | none =>
            cases hread : fs.readF path with
            | none =>
                rw [CachedImage.load_read_err_none fs path speed s modified
                  hstat hlook hread] at hload
                cases hload
            | some bytes =>
                rw [CachedImage.load_read_none fs path speed s modified bytes
                  hstat hlook hread] at hload
                have himg :
                    ({ id := s.nextId, content := .encodedFile bytes speed } : Handle) = img :=
                  congrArg Prod.fst (Except.ok.inj hload)
                have hs₂ := congrArg Prod.snd (Except.ok.inj hload)
                dsimp only at hs₂
                refine ⟨{ modified := modified, image := img, marked := false, speed := speed },
                  ?_, rfl, rfl⟩
                rw [← hs₂]
                show ilookup path (iinsert path _ s.imageCache) = _
                rw [← himg]
                exact ilookup_iinsert path _ s.imageCache

/-- Witness for C9 at a concrete state: a successful image load leaves
an unmarked entry holding the returned handle. -/
theorem cache_new_entries_survive_sweep_witness :
    ∃ en, ilookup "p"
        ({ witState with imageCache := iunmark "p" witState.imageCache } : BgState).imageCache =
        some en ∧ en.marked = false ∧ en.image = witHandleI := by
  have hload : CachedImage.load witFs "p" 1 witState =
      .ok (witHandleI, { witState with imageCache := iunmark "p" witState.imageCache }) := by
    rfl
  exact (cache_new_entries_survive_sweep sampleOps (fun _ => 0) witState
    [(sampleGradient, 2, 2)] (by simp [witState])).2.2.2 witFs "p" 1 witHandleI _ hload

lemma CachedImage.load_not_notImplemented (fs : FileSystem) (path : String)
    (speed : ℚ) (s : BgState) :
    CachedImage.load fs path speed s ≠ .error .notImplemented := by
  intro h
  cases hstat : fs.stat path with
  | none =>
      rw [CachedImage.load_stat_err fs path speed s hstat] at h
      simp at h
  | some modified =>
      cases hlook : ilookup path s.imageCache with
      | some cached =>
          by_cases hcond : cached.modified = modified ∧ cached.speed = speed
          · rw [CachedImage.load_hit fs path speed s modified cached hstat hlook hcond] at h
            simp at h
          · cases hread : fs.readF path with
            | none =>
                rw [CachedImage.load_read_err_stale fs path speed s modified cached
                  hstat hlook hcond hread] at h
                simp at h
            | some bytes =>
                rw [CachedImage.load_read_stale fs path speed s modified cached bytes
                  hstat hlook hcond hread] at h
                simp at h
      | none =>
          cases hread : fs.readF path with
          | none =>
              rw [CachedImage.load_read_err_none fs path speed s modified
                hstat hlook hread] at h
              simp at h
          | some bytes =>
              rw [CachedImage.load_read_none fs path speed s modified bytes
                hstat hlook hread] at h
              simp at h

/-- Claim C8: resolving a layer whose source is a gradient or a flat
color fails with the descriptive "not implemented" error whenever the
width or the height sizing mode is `Contain` or `Cover` (only
`Dimension` is accepted), while resolving a `File`-sourced layer never
produces that error, whatever its sizing modes. -/
theorem sizing_mode_restriction (ops : ExternalOps) (fs : FileSystem) (rng : ℕ → ℕ)
    (layer : BackgroundLayer) (dimensions : Dimensions)
    (render_metrics : RenderMetrics) (s : BgState) :
    (((∃ g, layer.source = .Gradient g) ∨ (∃ c, layer.source = .Color c)) →
      ((layer.width = .Contain ∨ layer.width = .Cover) ∨
        (layer.height = .Contain ∨ layer.height = .Cover)) →
      load_background_layer ops fs rng layer dimensions render_metrics s =
        .error .notImplemented) ∧
    (∀ path speed, layer.source = .File path speed →
      load_background_layer ops fs rng layer dimensions render_metrics s ≠
        .error .notImplemented) := by
  constructor
  · intro hsrc hsize
    obtain ⟨src, wid, hei, rest⟩ := layer
    rcases hsrc with ⟨g, hg⟩ | ⟨c, hc⟩
    · cases hg
      rcases hsize with (hw | hw) | (hh | hh) <;>
        first
          | (cases hw; cases hei <;> rfl)
          | (cases hh; cases wid <;> rfl)
    · cases hc
      rcases hsize with (hw | hw) | (hh | hh) <;>
        first
          | (cases hw; cases hei <;> rfl)
          | (cases hh; cases wid <;> rfl)
  · intro path speed hsrc habs
    obtain ⟨src, wid, hei, rest⟩ := layer
    cases hsrc
    simp only [load_background_layer] at habs
    cases hl : CachedImage.load fs path speed s with
    | ok p => rw [hl] at habs; cases habs
    | error e =>
        rw [hl] at habs
        have he : e = LoadErr.notImplemented := by
          have := Except.error.inj habs
          exact this
        rw [he] at hl
        exact CachedImage.load_not_notImplemented fs path speed s hl

/-- A baseline concrete layer definition for witnesses. -/
def baseLayer : BackgroundLayer :=
  { source := .Color 0
    width := .Dimension fun ctx => ctx.pixel_max
    height := .Dimension fun ctx => ctx.pixel_max
    horizontal_align := .Left
    vertical_align := .Top
    horizontal_offset := none
    vertical_offset := none
    repeat_x := .Repeat
    repeat_y := .Repeat
    repeat_x_size := none
    repeat_y_size := none
    attachment := .Fixed
    opacity := 1
    hsb := 0 }

def sampleDimensions : Dimensions := { dpi := 96, pixel_width := 640, pixel_height := 480 }

def sampleMetrics : RenderMetrics := { cellWidth := 8, cellHeight := 16 }

/-- Witness for C8: a Contain-sized gradient layer errors with
"not implemented"; a File layer with the same sizing modes does not. -/
theorem sizing_mode_restriction_witness :
    load_background_layer sampleOps witFs (fun _ => 0)
        { baseLayer with source := .Gradient sampleGradient, width := .Contain }
        sampleDimensions sampleMetrics emptyState = .error .notImplemented ∧
    load_background_layer sampleOps witFs (fun _ => 0)
        { baseLayer with source := .File "p" 1, width := .Contain }
        sampleDimensions sampleMetrics emptyState ≠ .error .notImplemented := by
  constructor
  · exact (sizing_mode_restriction sampleOps witFs (fun _ => 0)
      { baseLayer with source := .Gradient sampleGradient, width := .Contain }
      sampleDimensions sampleMetrics emptyState).1
      (Or.inl ⟨sampleGradient, rfl⟩) (Or.inl (Or.inl rfl))
  · exact (sizing_mode_restriction sampleOps witFs (fun _ => 0)
      { baseLayer with source := .File "p" 1, width := .Contain }
      sampleDimensions sampleMetrics emptyState).2 "p" 1 rfl

lemma load_all_append (ops : ExternalOps) (fs : FileSystem) (rng : ℕ → ℕ)
    (dimensions : Dimensions) (render_metrics : RenderMetrics) :
    ∀ (xs zs : List BackgroundLayer) (s : BgState),
      load_background_image ops fs rng (xs ++ zs) dimensions render_metrics s =
        ((load_background_image ops fs rng xs dimensions render_metrics s).1 ++
          (load_background_image ops fs rng zs dimensions render_metrics
            (load_background_image ops fs rng xs dimensions render_metrics s).2).1,
         (load_background_image ops fs rng zs dimensions render_metrics
            (load_background_image ops fs rng xs dimensions render_metrics s).2).2) := by
  intro xs
  induction xs with
  | nil => intro zs s; simp [load_background_image]
  | cons x xs ih =>
      intro zs s
      simp only [List.cons_append, load_background_image]
      cases hx : load_background_layer ops fs rng x dimensions render_metrics s with
      | ok p =>
          obtain ⟨l, s'⟩ := p
          dsimp only
          rw [List.append_eq, ih zs s']
          simp [List.cons_append]
      | error e =>
          dsimp only
          rw [List.append_eq, ih zs s]

lemma load_layer_defn (ops : ExternalOps) (fs : FileSystem) (rng : ℕ → ℕ)
    (layer : BackgroundLayer) (dimensions : Dimensions)
    (render_metrics : RenderMetrics) (s : BgState)
    (ly : LoadedBackgroundLayer) (s₂ : BgState)
    (h : load_background_layer ops fs rng layer dimensions render_metrics s = .ok (ly, s₂)) :
    ly.defn = layer := by
  obtain ⟨src, wid, hei, rest⟩ := layer
  cases src with
  | Gradient g =>
      cases wid with
      | Dimension dw =>
          cases hei with
          | Dimension dh =>
              simp only [load_background_layer] at h
              cases hl : CachedGradient.load ops rng g _ _ s with
              | ok p =>
                  rw [hl] at h
                  simp only [Except.map] at h
                  have h₁ := congrArg Prod.fst (Except.ok.inj h)
                  dsimp only at h₁
                  rw [← h₁]
              | error e =>
                  rw [hl] at h
                  simp only [Except.map] at h
                  cases h
          | Contain => simp only [load_background_layer] at h; cases h
          | Cover => simp only [load_background_layer] at h; cases h
      | Contain => simp only [load_background_layer] at h; cases h
      | Cover => simp only [load_background_layer] at h; cases h
  | Color c =>
      cases wid with
      | Dimension dw =>
          cases hei with
          | Dimension dh =>
              simp only [load_background_layer] at h
              have h₁ := congrArg Prod.fst (Except.ok.inj h)
              dsimp only at h₁
              rw [← h₁]
          | Contain => simp only [load_background_layer] at h; cases h
          | Cover => simp only [load_background_layer] at h; cases h
      | Contain => simp only [load_background_layer] at h; cases h
      | Cover => simp only [load_background_layer] at h; cases h
  | File path speed =>
      simp only [load_background_layer] at h
      cases hl : CachedImage.load fs path speed s with
      | ok p =>
          rw [hl] at h
          simp only [Except.map] at h
          have h₁ := congrArg Prod.fst (Except.ok.inj h)
          dsimp only at h₁
          rw [← h₁]
      | error e =>
          rw [hl] at h
          simp only [Except.map] at h
          cases h

/-- Claim C7: `load_background_image` never fails as a whole (it is a
total function into a plain list); a layer whose resolution fails at
its turn is omitted and the remaining layers resolve exactly as if the
failing layer were absent; a layer whose resolution succeeds at its
turn is appended in position; and the resolved list is, through each
layer's stored definition, a subsequence of the configured layer list
in the original order. -/
theorem load_all_error_isolation (ops : ExternalOps) (fs : FileSystem) (rng : ℕ → ℕ)
    (dimensions : Dimensions) (render_metrics : RenderMetrics) :
    (∀ (xs : List BackgroundLayer) (y : BackgroundLayer) (ys : List BackgroundLayer)
        (s : BgState) (e : LoadErr),
      load_background_layer ops fs rng y dimensions render_metrics
        (load_background_image ops fs rng xs dimensions render_metrics s).2 = .error e →
      load_background_image ops fs rng (xs ++ y :: ys) dimensions render_metrics s =
        load_background_image ops fs rng (xs ++ ys) dimensions render_metrics s) ∧
    (∀ (xs : List BackgroundLayer) (y : BackgroundLayer) (ys : List BackgroundLayer)
        (s : BgState) (ly : LoadedBackgroundLayer) (s₂ : BgState),
      load_background_layer ops fs rng y dimensions render_metrics
        (load_background_image ops fs rng xs dimensions render_metrics s).2 = .ok (ly, s₂) →
      (load_background_image ops fs rng (xs ++ y :: ys) dimensions render_metrics s).1 =
        (load_background_image ops fs rng xs dimensions render_metrics s).1 ++
          ly :: (load_background_image ops fs rng ys dimensions render_metrics s₂).1) ∧
    (∀ (config : List BackgroundLayer) (s : BgState),
      ((load_background_image ops fs rng config dimensions render_metrics s).1.map
        (fun l => l.defn)).Sublist config) := by
  refine ⟨?_, ?_, ?_⟩
  · intro xs y ys s e herr
    rw [load_all_append ops fs rng dimensions render_metrics xs (y :: ys) s,
      load_all_append ops fs rng dimensions render_metrics xs ys s]
    have hstep : load_background_image ops fs rng (y :: ys) dimensions render_metrics
        (load_background_image ops fs rng xs dimensions render_metrics s).2 =
        load_background_image ops fs rng ys dimensions render_metrics
          (load_background_image ops fs rng xs dimensions render_metrics s).2 := by
      simp only [load_background_image, herr]
    rw [hstep]
  · intro xs y ys s ly s₂ hok
    rw [load_all_append ops fs rng dimensions render_metrics xs (y :: ys) s]
    have hstep : load_background_image ops fs rng (y :: ys) dimensions render_metrics
        (load_background_image ops fs rng xs dimensions render_metrics s).2 =
        (ly :: (load_background_image ops fs rng ys dimensions render_metrics s₂).1,
          (load_background_image ops fs rng ys dimensions render_metrics s₂).2) := by
      simp only [load_background_image, hok]
    rw [hstep]
  · intro config
    induction config with
    | nil => intro s; simp [load_background_image]
    | cons c cfg ih =>
        intro s
        simp only [load_background_image]
        cases hl : load_background_layer ops fs rng c dimensions render_metrics s with
        | ok p =>
            obtain ⟨l, s'⟩ := p
            dsimp only
            rw [List.map_cons,
              load_layer_defn ops fs rng c dimensions render_metrics s l s' hl]
            exact List.Sublist.cons₂ c (ih s')
        | error e =>
            dsimp only
            exact List.Sublist.cons c (ih s)

/-- Witness for C7: a failing Contain-sized gradient layer between two
other layers is dropped without affecting the rest. -/
theorem load_all_error_isolation_witness :
    load_background_image sampleOps witFs (fun _ => 0)
        ([] ++ { baseLayer with source := .Gradient sampleGradient, width := .Contain } ::
          [baseLayer])
        sampleDimensions sampleMetrics emptyState =
      load_background_image sampleOps witFs (fun _ => 0) ([] ++ [baseLayer])
        sampleDimensions sampleMetrics emptyState :=
  (load_all_error_isolation sampleOps witFs (fun _ => 0) sampleDimensions sampleMetrics).1
    [] { baseLayer with source := .Gradient sampleGradient, width := .Contain }
    [baseLayer] emptyState .notImplemented rfl

lemma collectGet_aux (k : ImageContent) :
    ∀ (m : List (ImageContent × Handle)) (acc : Option Handle) (h : Handle),
      m.foldl (fun acc p => if p.1 = k then some p.2 else acc) acc = some h →
      (k, h) ∈ m ∨ acc = some h := by
  intro m
  induction m with
  | nil => intro acc h hf; exact Or.inr hf
  | cons p ps ih =>
      intro acc h hf
      rcases ih _ h hf with hmem | hacc
      · exact Or.inl (List.mem_cons_of_mem _ hmem)
      · dsimp only at hacc
        by_cases hk : p.1 = k
        · rw [if_pos hk] at hacc
          left
          have hp : p = (k, h) := by
            obtain ⟨p1, p2⟩ := p
            simp only at hk
            have h2 : p2 = h := Option.some.inj hacc
            rw [hk, h2]
          rw [← hp]
          exact List.mem_cons_self _ _
        · rw [if_neg hk] at hacc
          exact Or.inr hacc

lemma collectGet_mem (m : List (ImageContent × Handle)) (k : ImageContent) (h : Handle)
    (hget : collectGet m k = some h) : (k, h) ∈ m := by
  rcases collectGet_aux k m none h hget with hmem | habs
  · exact hmem
  · cases habs

lemma collectGet_none_aux (k : ImageContent) :
    ∀ (m : List (ImageContent × Handle)) (acc : Option Handle),
      m.foldl (fun acc p => if p.1 = k then some p.2 else acc) acc = none →
      ∀ p ∈ m, p.1 ≠ k := by
  intro m
  induction m with
  | nil => intro acc _ p hp; cases hp
  | cons q ps ih =>
      intro acc hf p hp
      rcases List.mem_cons.mp hp with hp | hp
      · intro hk
        -- once the key is hit the accumulator stays a `some`
        have hsome : ∀ (qs : List (ImageContent × Handle)) (h₀ : Handle),
            qs.foldl (fun acc p => if p.1 = k then some p.2 else acc) (some h₀) ≠ none := by
          intro qs
          induction qs with
          | nil => intro h₀ habs; cases habs
          | cons r rs ihr =>
              intro h₀ habs
              by_cases hr : r.1 = k
              · rw [List.foldl_cons, if_pos hr] at habs
                exact ihr _ habs
              · rw [List.foldl_cons, if_neg hr] at habs
                exact ihr _ habs
        have hqk : q.1 = k := by rw [← hp]; exact hk
        rw [List.foldl_cons] at hf
        rw [if_pos hqk] at hf
        exact hsome ps q.2 hf
      · rw [List.foldl_cons] at hf
        exact ih _ hf p hp

lemma load_layer_file (ops : ExternalOps) (fs : FileSystem) (rng : ℕ → ℕ)
    (layer : BackgroundLayer) (path : String) (speed : ℚ)
    (dimensions : Dimensions) (render_metrics : RenderMetrics) (s : BgState)
    (img : Handle) (s₂ : BgState)
    (hsrc : layer.source = .File path speed)
    (hload : CachedImage.load fs path speed s = .ok (img, s₂)) :
    load_background_layer ops fs rng layer dimensions render_metrics s =
      .ok ({ source := img, defn := layer }, s₂) := by
  obtain ⟨src, wid, hei, rest⟩ := layer
  dsimp only at hsrc
  subst hsrc
  simp only [load_background_layer, hload]
  rfl

/-- Claim C4: in `reload_background_image`, every returned layer either
reuses (is identity-equal to) some previously resolved layer's shared
handle — which happens exactly when its freshly loaded buffer's content
identity matches a previous one — or no previous layer shares its
content identity; both caches are swept at the end, so every cache
entry left in the final state is unmarked; and, end to end, reloading
an unchanged single-file-layer configuration with unchanged file
metadata hands back the previous layer's identical shared handle. -/
theorem reload_identity_preservation (ops : ExternalOps) (rng : ℕ → ℕ)
    (dimensions : Dimensions) (render_metrics : RenderMetrics) :
    (∀ (config : List BackgroundLayer) (existing : List LoadedBackgroundLayer)
        (fs : FileSystem) (s : BgState),
      (∀ l ∈ (reload_background_image ops fs rng config existing
          dimensions render_metrics s).1,
        (∃ prev ∈ existing, l.source = prev.source) ∨
        (∀ prev ∈ existing, imageHash prev.source ≠ imageHash l.source)) ∧
      (∀ e ∈ (reload_background_image ops fs rng config existing
          dimensions render_metrics s).2.gradientCache, e.marked = false) ∧
      (∀ p ∈ (reload_background_image ops fs rng config existing
          dimensions render_metrics s).2.imageCache, p.2.marked = false)) ∧
    (∀ (layer : BackgroundLayer) (path : String) (speed : ℚ) (H Hc : Handle)
        (d : BackgroundLayer) (T : ℕ) (mk : Bool) (fs : FileSystem)
        (gcache : List CachedGradient) (nid : ℕ),
      layer.source = .File path speed →
      Hc.content = H.content →
      fs.stat path = some T →
      (reload_background_image ops fs rng [layer] [{ source := H, defn := d }]
        dimensions render_metrics
        { gradientCache := gcache
          imageCache := [(path, { modified := T, image := Hc, marked := mk, speed := speed })]
          nextId := nid }).1 = [{ source := H, defn := layer }]) := by
  constructor
  · intro config existing fs s
    refine ⟨?_, ?_, ?_⟩
    · intro l hl
      unfold reload_background_image at hl
      dsimp only at hl
      obtain ⟨lf, hlf, hfl⟩ := List.mem_map.mp hl
      cases hcg : collectGet (existing.map fun l => (imageHash l.source, l.source))
          (imageHash lf.source) with
      | some ex =>
          rw [hcg] at hfl
          left
          have hmem := collectGet_mem _ _ _ hcg
          obtain ⟨prev, hprev, hpe⟩ := List.mem_map.mp hmem
          have hex : prev.source = ex := congrArg Prod.snd hpe
          refine ⟨prev, hprev, ?_⟩
          rw [← hfl]
          exact hex.symm
      | none =>
          rw [hcg] at hfl
          right
          intro prev hprev habs
          have hcg' : (existing.map fun l => (imageHash l.source, l.source)).foldl
              (fun acc p => if p.1 = imageHash lf.source then some p.2 else acc) none =
              none := hcg
          have hnone := collectGet_none_aux (imageHash lf.source)
            (existing.map fun l => (imageHash l.source, l.source)) none hcg'
          apply hnone (imageHash prev.source, prev.source)
            (List.mem_map_of_mem _ hprev)
          rw [habs, ← hfl]
    · intro e he
      unfold reload_background_image at he
      dsimp only at he
      have := (List.mem_filter.mp he).2
      simpa using this
    · intro p hp
      unfold reload_background_image at hp
      dsimp only at hp
      have := (List.mem_filter.mp hp).2
      simpa using this
  · intro layer path speed H Hc d T mk fs gcache nid hsrc hcontent hstat
    have hs₂img : (CachedGradient.mark (CachedImage.mark
        { gradientCache := gcache
          imageCache := [(path, { modified := T, image := Hc, marked := mk, speed := speed })]
          nextId := nid })).imageCache =
        [(path, { modified := T, image := Hc, marked := true, speed := speed })] := rfl
    have hlook : ilookup path (CachedGradient.mark (CachedImage.mark
        { gradientCache := gcache
          imageCache := [(path, { modified := T, image := Hc, marked := mk, speed := speed })]
          nextId := nid })).imageCache =
        some { modified := T, image := Hc, marked := true, speed := speed } := by
      rw [hs₂img]
      simp [ilookup, List.find?]
    have hload := CachedImage.load_hit fs path speed
      (CachedGradient.mark (CachedImage.mark
        { gradientCache := gcache
          imageCache := [(path, { modified := T, image := Hc, marked := mk, speed := speed })]
          nextId := nid }))
      T { modified := T, image := Hc, marked := true, speed := speed } hstat hlook ⟨rfl, rfl⟩
    have hlayer := load_layer_file ops fs rng layer path speed dimensions render_metrics
      (CachedGradient.mark (CachedImage.mark
        { gradientCache := gcache
          imageCache := [(path, { modified := T, image := Hc, marked := mk, speed := speed })]
          nextId := nid }))
      Hc _ hsrc hload
    unfold reload_background_image
    rw [List.map_cons, List.map_nil]
    simp only [load_background_image, hlayer]
    simp [collectGet, imageHash, hcontent]

/-- Witness for C4: reloading an unchanged single-file configuration
with unchanged metadata returns the previous shared handle (id 3), not
the cache's freshly returned one (id 6). -/
theorem reload_identity_preservation_witness :
    (reload_background_image sampleOps witFs (fun _ => 0)
      [{ baseLayer with source := .File "p" 1 }]
      [{ source := { id := 3, content := .encodedFile [1] 1 }, defn := baseLayer }]
      sampleDimensions sampleMetrics
      { gradientCache := []
        imageCache := [("p", { modified := 10, image := witHandleI, marked := false, speed := 1 })]
        nextId := 7 }).1 =
    [{ source := { id := 3, content := .encodedFile [1] 1 }
       defn := { baseLayer with source := .File "p" 1 } }] :=
  (reload_identity_preservation sampleOps (fun _ => 0) sampleDimensions sampleMetrics).2
    { baseLayer with source := .File "p" 1 } "p" 1
    { id := 3, content := .encodedFile [1] 1 } witHandleI baseLayer 10 false witFs [] 7
    rfl rfl rfl
